import Mathlib

/-!
Verification of the correlation/saturation analytics engine of the
`parkingsdimopoulos` repository (scripts/stats_lib.py, scripts/geo.py,
scripts/analyze_correlations.py, scripts/analyze_saturation.py).

The Python sources are shallowly embedded:
* Python `float` arithmetic is embedded as exact arithmetic (ℚ for the
  computable data pipeline, ℝ where `math.sqrt` / `math.exp` /
  trigonometry are involved);
* Python dicts are embedded as insertion-ordered association lists with
  last-write-wins update (`upsert` / `addPoint`), matching CPython's
  documented dict semantics;
* Python exceptions are embedded as `Except` / `Option` results;
* `sorted` / `list.sort` (a stable sort) is embedded as
  `List.insertionSort`, which is also stable, and a stable sort of a list
  under a total preorder is unique, so the two agree elementwise.

Sections follow the source files: first generic helpers for the pieces of
the Python standard library the scripts use (`str.strip`, `float()`,
`int(float())`, `datetime.strptime("%Y-%m-%d %H:%M")`, `round`), then the
statistics library, then the two analysis pipelines, then the theorems.
-/

/-! ### Python standard-library helpers -/

/-- The ASCII whitespace characters recognised by `str.strip()`. -/
def isPySpace (c : Char) : Bool :=
  c = ' ' || c = '\t' || c = '\n' || c = '\r' || c = '\x0b' || c = '\x0c'

/-- Strip leading and trailing whitespace from a character list. -/
def stripChars (cs : List Char) : List Char :=
  ((cs.dropWhile isPySpace).reverse.dropWhile isPySpace).reverse

/-- Embedding of Python `str.strip()` (ASCII whitespace). -/
def pyStrip (s : String) : String := ⟨stripChars s.data⟩

/-- Split a character list on a separator character.  Mirrors
Python `str.split(sep)`: always returns at least one (possibly empty)
group, and adjacent separators yield empty groups. -/
def splitOnChar (sep : Char) : List Char → List (List Char)
  | [] => [[]]
  | c :: cs =>
    if c = sep then [] :: splitOnChar sep cs
    else
      match splitOnChar sep cs with
      | [] => [[c]]
      | g :: gs => (c :: g) :: gs

/-- Value of a nonempty all-digit character list, most significant first.
`none` if the list is empty or contains a non-digit. -/
def digitsValAux : List Char → ℕ → Option ℕ
  | [], acc => some acc
  | c :: cs, acc =>
    if c.isDigit then digitsValAux cs (acc * 10 + (c.toNat - 48)) else none

/-- Parse a nonempty digit string to its value. -/
def digitsVal? (cs : List Char) : Option ℕ :=
  match cs with
  | [] => none
  | _ => digitsValAux cs 0

/-- Value of an all-digit character list, `0` when empty (used for the
fractional part of a decimal literal, where `"1."` and `".5"` are legal
Python floats). -/
def digitsVal0 (cs : List Char) : ℕ := (digitsValAux cs 0).getD 0

/-- Parse an unsigned decimal mantissa `digits [. digits]` (at least one
digit overall) to a rational. -/
def parseUnsignedDec (cs : List Char) : Option ℚ :=
  match splitOnChar '.' cs with
  | [as] => (digitsVal? as).map (fun n => (n : ℚ))
  | [as, bs] =>
    if as.isEmpty && bs.isEmpty then none
    else if as.all Char.isDigit && bs.all Char.isDigit then
      some ((digitsVal0 as : ℚ) + (digitsVal0 bs : ℚ) / (10 : ℚ) ^ bs.length)
    else none
  | _ => none

/-- Embedding of Python `float(s)` on finite decimal literals: optional
surrounding whitespace, optional sign, decimal mantissa, optional
`e`/`E` exponent with optional sign.  (The history CSV only ever holds
such literals; `inf`/`nan` spellings and digit underscores are outside
the model.)  Returns the exact rational value. -/
def pyFloat? (s : String) : Option ℚ :=
  let cs := stripChars s.data
  let (sgn, body) : ℚ × List Char :=
    match cs with
    | '+' :: r => (1, r)
    | '-' :: r => (-1, r)
    | r => (1, r)
  match splitOnChar 'e' (body.map Char.toLower) with
  | [m] => (parseUnsignedDec m).map (fun v => sgn * v)
  | [m, e] =>
    let (esgn, ed) : ℤ × List Char :=
      match e with
      | '+' :: r => (1, r)
      | '-' :: r => (-1, r)
      | r => (1, r)
    match parseUnsignedDec m, digitsVal? ed with
    | some mv, some ev => some (sgn * mv * (10 : ℚ) ^ (esgn * (ev : ℤ)))
    | _, _ => none
  | _ => none

/-- Embedding of Python `int(float(s))`: parse then truncate toward zero. -/
def pyIntFloat? (s : String) : Option ℤ :=
  (pyFloat? s).map (fun q => if 0 ≤ q then ⌊q⌋ else ⌈q⌉)

/-- Gregorian leap year, as in Python `datetime`. -/
def isLeap (y : ℕ) : Bool :=
  (y % 4 = 0 && y % 100 ≠ 0) || y % 400 = 0

/-- Number of days in month `m` of year `y`. -/
def daysInMonth (y m : ℕ) : ℕ :=
  if m = 2 then (if isLeap y then 29 else 28)
  else if m = 4 ∨ m = 6 ∨ m = 9 ∨ m = 11 then 30
  else 31

/-- Days in year `y` before the first day of month `m`. -/
def daysBeforeMonth (y m : ℕ) : ℕ :=
  ((List.range (m - 1)).map (fun i => daysInMonth y (i + 1))).sum

/-- Days from 0001-01-01 (proleptic Gregorian) to the given valid date. -/
def daysFromCivil (y m d : ℕ) : ℕ :=
  let py := y - 1
  py * 365 + py / 4 - py / 100 + py / 400 + daysBeforeMonth y m + (d - 1)

/-- Embedding of `utils.make_timestamp(date, time)`, i.e.
`datetime.strptime(f"{date} {time}", "%Y-%m-%d %H:%M")`.  A `datetime`
is represented by its total minute count from 0001-01-01 00:00, which
preserves the ordering and the `timedelta(days=·)` subtraction the
scripts use.  Parsing follows `strptime`: `%Y` is 1–4 digits with the
year in `1..9999`, `%m`/`%d`/`%H`/`%M` are 1–2 digits in their calendar
ranges (day checked against the month/leap-year length); any other
character, including whitespace, fails.  `none` embeds `ValueError`. -/
def make_timestamp (date time : String) : Option ℤ :=
  match splitOnChar '-' date.data with
  | [ys, ms, ds] =>
    match digitsVal? ys, digitsVal? ms, digitsVal? ds with
    | some y, some m, some d =>
      if 1 ≤ y ∧ y ≤ 9999 ∧ ys.length ≤ 4 ∧
          1 ≤ m ∧ m ≤ 12 ∧ ms.length ≤ 2 ∧
          1 ≤ d ∧ d ≤ daysInMonth y m ∧ ds.length ≤ 2 then
        match splitOnChar ':' time.data with
        | [hs, mins] =>
          match digitsVal? hs, digitsVal? mins with
          | some hh, some mi =>
            if hh ≤ 23 ∧ hs.length ≤ 2 ∧ mi ≤ 59 ∧ mins.length ≤ 2 then
              some ((daysFromCivil y m d : ℤ) * 1440 + (hh : ℤ) * 60 + (mi : ℤ))
            else none
          | _, _ => none
        | _ => none
      else none
    | _, _, _ => none
  | _ => none

/-! ### Insertion-ordered dictionaries (Python `dict`) -/

/-- Update key `k` in place if present (keeping its position), else append
`(k, v)` at the end — exactly CPython's dict insertion/update order. -/
def upsert {α β : Type} [DecidableEq α] (k : α) (v : β) : List (α × β) → List (α × β)
  | [] => [(k, v)]
  | kv :: rest => if kv.1 = k then (k, v) :: rest else kv :: upsert k v rest

/-- Dictionary lookup. -/
def alookup {α β : Type} [DecidableEq α] (m : List (α × β)) (k : α) : Option β :=
  (m.find? (fun kv => decide (kv.1 = k))).map (·.2)

/-! ### Python `round(x, d)` -/

/-- Round-half-to-even to an integer (banker's rounding, as Python's
`round` on the exact value). -/
def roundHalfEvenQ (s : ℚ) : ℤ :=
  let n := ⌊s⌋
  let f := s - (n : ℚ)
  if f < 1 / 2 then n
  else if 1 / 2 < f then n + 1
  else if n % 2 = 0 then n else n + 1

/-- Embedding of Python `round(q, d)` for rational `q`. -/
def pyRound (d : ℕ) (q : ℚ) : ℚ :=
  ((roundHalfEvenQ (q * (10 : ℚ) ^ d) : ℚ)) / (10 : ℚ) ^ d

open Classical in
/-- Round-half-to-even to an integer, real-valued version. -/
noncomputable def roundHalfEvenR (s : ℝ) : ℤ :=
  let n := ⌊s⌋
  let f := s - (n : ℝ)
  if f < 1 / 2 then n
  else if 1 / 2 < f then n + 1
  else if n % 2 = 0 then n else n + 1

/-- Embedding of Python `round(x, d)` for real `x`. -/
noncomputable def pyRoundR (d : ℕ) (x : ℝ) : ℝ :=
  ((roundHalfEvenR (x * (10 : ℝ) ^ d) : ℝ)) / (10 : ℝ) ^ d

/-! ### scripts/stats_lib.py

The library raises `ValueError` on an empty list (`_as_list`) and on a
length mismatch; the spec names these `EmptyInputError` and
`LengthMismatchError`, embedded as `StatsError`.  Values are exact:
population variance `(1/n)·Σ(x−m)²`, population covariance, Pearson
correlation `cov/(σx·σy)` with the zero-variance guard of
`stats_lib.correlation`. -/

/-- The two `ValueError` conditions of `stats_lib`. -/
inductive StatsError where
  | emptyInput
  | lengthMismatch
deriving DecidableEq

/-- Arithmetic mean of a (known nonempty) list: `sum(vals) / len(vals)`. -/
def moyenneVal (xs : List ℚ) : ℚ := xs.sum / xs.length

/-- Population variance of a (known nonempty) list:
`sum((x - m)**2 for x in vals) / len(vals)`. -/
def varianceVal (xs : List ℚ) : ℚ :=
  ((xs.map (fun x => (x - moyenneVal xs) ^ 2)).sum) / xs.length

/-- Population covariance of two (known nonempty, equal-length) lists:
`sum((a - mx) * (b - my) for a, b in zip(xs, ys)) / len(xs)`. -/
def covVal (xs ys : List ℚ) : ℚ :=
  (((xs.zip ys).map (fun ab => (ab.1 - moyenneVal xs) * (ab.2 - moyenneVal ys))).sum) / xs.length

/-- `stats_lib.moyenne`. -/
def moyenne (xs : List ℚ) : Except StatsError ℚ :=
  if xs.length = 0 then .error .emptyInput else .ok (moyenneVal xs)

/-- `stats_lib.variance`. -/
def variance (xs : List ℚ) : Except StatsError ℚ :=
  if xs.length = 0 then .error .emptyInput else .ok (varianceVal xs)

/-- `stats_lib.ecart_type`: `math.sqrt(variance(values))`. -/
noncomputable def ecart_type (xs : List ℚ) : Except StatsError ℝ :=
  (variance xs).map (fun v => Real.sqrt (v : ℝ))

/-- `stats_lib.covariance`: `ValueError` on an empty list or a length
mismatch, else the population covariance. -/
def covariance (xs ys : List ℚ) : Except StatsError ℚ :=
  if xs.length = 0 ∨ ys.length = 0 then .error .emptyInput
  else if xs.length ≠ ys.length then .error .lengthMismatch
  else .ok (covVal xs ys)

open Classical in
/-- The value computed by a successful `stats_lib.correlation` call:
`0.0` when either standard deviation `math.sqrt(variance)` is zero, else
`covariance / (sx * sy)`. -/
noncomputable def corrVal (xs ys : List ℚ) : ℝ :=
  if Real.sqrt ((varianceVal xs : ℝ)) = 0 ∨ Real.sqrt ((varianceVal ys : ℝ)) = 0 then 0
  else (covVal xs ys : ℝ) / (Real.sqrt ((varianceVal xs : ℝ)) * Real.sqrt ((varianceVal ys : ℝ)))

/-- `stats_lib.correlation`: `ValueError` on an empty list or a length
mismatch, else `corrVal`. -/
noncomputable def correlation (xs ys : List ℚ) : Except StatsError ℝ :=
  if xs.length = 0 ∨ ys.length = 0 then .error .emptyInput
  else if xs.length ≠ ys.length then .error .lengthMismatch
  else .ok (corrVal xs ys)

/-- Effectful map over a list in the `Except` monad, structurally
recursive: the first error in traversal order escapes, exactly like the
first exception raised inside `matrice_correlation`'s nested loops. -/
def mapME {ε α β : Type} (f : α → Except ε β) : List α → Except ε (List β)
  | [] => .ok []
  | a :: as =>
    match f a with
    | .error e => .error e
    | .ok b =>
      match mapME f as with
      | .error e => .error e
      | .ok bs => .ok (b :: bs)

/-- `stats_lib.matrice_correlation`: `ValueError` on an empty series
list, else the row-major N×N matrix `mat[i][j] = correlation(series[i],
series[j])`, with the first exception of the nested loops escaping. -/
noncomputable def matrice_correlation (series : List (List ℚ)) : Except StatsError (List (List ℝ)) :=
  if series.length = 0 then .error .emptyInput
  else mapME (fun si => mapME (fun sj => correlation si sj) series) series

/-! ### scripts/geo.py -/

/-- `math.radians`. -/
noncomputable def radians (x : ℝ) : ℝ := x * Real.pi / 180

open Classical in
/-- `math.atan2` (standard two-argument arctangent). -/
noncomputable def atan2 (y x : ℝ) : ℝ :=
  if 0 < x then Real.arctan (y / x)
  else if x < 0 then
    (if 0 ≤ y then Real.arctan (y / x) + Real.pi else Real.arctan (y / x) - Real.pi)
  else
    (if 0 < y then Real.pi / 2 else if y < 0 then -(Real.pi / 2) else 0)

/-- `geo.haversine_km`: great-circle distance, Earth radius 6371 km.
(For well-formed latitudes `a` lies in `[0,1]`; `Real.sqrt` of a
negative argument is 0 where Python's `math.sqrt` would raise, which no
claim depends on.) -/
noncomputable def haversine_km (lat1 lon1 lat2 lon2 : ℝ) : ℝ :=
  let r : ℝ := 6371
  let phi1 := radians lat1
  let phi2 := radians lat2
  let dphi := radians (lat2 - lat1)
  let dlambda := radians (lon2 - lon1)
  let a := Real.sin (dphi / 2) ^ 2 +
    Real.cos phi1 * Real.cos phi2 * Real.sin (dlambda / 2) ^ 2
  let c := 2 * atan2 (Real.sqrt a) (Real.sqrt (1 - a))
  r * c

/-! ### scripts/analyze_correlations.py — data model

A history CSV row after `csv.DictReader`: the six named string fields.
Missing fields read as `""` (Python `r.get(...) or ""`). -/

structure RawRow where
  date : String
  heure : String
  typ : String
  nom : String
  placesLibres : String
  placesTotales : String
deriving DecidableEq

/-- `series[typ][name][timestamp] = free`: the inner dict of one entity. -/
abbrev TsMap := List (ℤ × ℤ)

/-- One per-type dict `name ↦ TsMap`. -/
abbrev SeriesT := List (String × TsMap)

/-- The two-key outer dict `{"Voiture": …, "Velo": …}` of
`_load_time_series`. -/
structure Series2 where
  voiture : SeriesT
  velo : SeriesT
deriving DecidableEq

/-- `series[typ][name][ts] = free` on a defaultdict-of-dict: update the
entity in place if present, else append it. -/
def addPoint : SeriesT → String → ℤ → ℤ → SeriesT
  | [], name, ts, free => [(name, [(ts, free)])]
  | (n, tm) :: rest, name, ts, free =>
    if n = name then (n, upsert ts free tm) :: rest
    else (n, tm) :: addPoint rest name ts free

/-- One iteration of the row loop of `_load_time_series`: strip the
fields, skip on a blank field, an unparseable timestamp, a timestamp
before the cutoff, an unparseable free count, or an unknown type;
otherwise store (last write wins on a duplicate timestamp).  (The source
checks `typ not in series` after parsing the free count; both orders
leave the state unchanged on any failure, so the result is the same.) -/
def loadStep (cutoff : Option ℤ) (s : Series2) (r : RawRow) : Series2 :=
  let d := pyStrip r.date
  let t := pyStrip r.heure
  let typ := pyStrip r.typ
  let name := pyStrip r.nom
  let free := pyStrip r.placesLibres
  if d = "" ∨ t = "" ∨ typ = "" ∨ name = "" then s
  else
    match make_timestamp d t with
    | none => s
    | some ts =>
      let store : Series2 :=
        match pyIntFloat? free with
        | none => s
        | some fi =>
          if typ = "Voiture" then { s with voiture := addPoint s.voiture name ts fi }
          else if typ = "Velo" then { s with velo := addPoint s.velo name ts fi }
          else s
      match cutoff with
      | some c => if ts < c then s else store
      | none => store

/-- `analyze_correlations._load_time_series`. -/
def _load_time_series (rows : List RawRow) (cutoff : Option ℤ) : Series2 :=
  rows.foldl (loadStep cutoff) ⟨[], []⟩

/-- `analyze_correlations._compute_deltas`: sort the timestamps and map
each timestamp (from the second on) to the difference of consecutive
values.  Keys of a `TsMap` are distinct, so any ascending sort agrees
with Python's `sorted`; the dict lookups always hit, so the `getD 0`
default is never used. -/
def _compute_deltas (tm : TsMap) : TsMap :=
  let ts := List.insertionSort (· ≤ ·) (tm.map (·.1))
  (ts.zip (ts.drop 1)).map (fun p => (p.2, (alookup tm p.2).getD 0 - (alookup tm p.1).getD 0))

/-- One iteration of `utils.max_timestamp_in_csv`: skip a row with a
falsy (empty) date or time field or an unparseable timestamp, else keep
the larger timestamp.  The source reads the fields unstripped here. -/
def maxStep (best : Option ℤ) (r : RawRow) : Option ℤ :=
  if r.date = "" ∨ r.heure = "" then best
  else
    match make_timestamp r.date r.heure with
    | none => best
    | some ts =>
      match best with
      | none => some ts
      | some b => if b < ts then some ts else some b

/-- `utils.max_timestamp_in_csv` on in-memory rows: fold keeping the
largest parseable timestamp. -/
def maxTimestamp (rows : List RawRow) : Option ℤ :=
  rows.foldl maxStep none

/-- Coordinate metadata: the already-extracted result of
`_coord(meta, typ, name)` — `none` embeds a missing entity, a non-dict
value, missing `lat`/`lon` keys, or a float conversion failure; JSON
file I/O is outside the engine. -/
abbrev Meta := String → String → Option (ℚ × ℚ)

/-- Configuration constants of `scripts/config.py` used by the engine. -/
def MIN_COMMON_POINTS : ℕ := 40

/-- `config.DISTANCE_WEIGHT_KM`. -/
def DISTANCE_WEIGHT_KM : ℝ := 1

/-- `config.DEFAULT_MAX_DISTANCE_KM`. -/
def DEFAULT_MAX_DISTANCE_KM : ℝ := 2

/-- `config.MIN_ABS_CORRELATION_TO_SHOW`. -/
def MIN_ABS_CORRELATION_TO_SHOW : ℝ := 0.25

/-- `config.TOP_N_PAIRS`. -/
def TOP_N_PAIRS : ℕ := 50

/-- The car deltas dict of `compute_for_days`: entities of the stripped,
cutoff-filtered series with at least 2 points, in insertion order, with
their delta series. -/
def carDeltasOf (rows : List RawRow) (latest : Option ℤ) (days : ℕ) : List (String × TsMap) :=
  let cutoff : Option ℤ := latest.map (fun L => L - (days : ℤ) * 1440)
  ((_load_time_series rows cutoff).voiture.filter (fun nv => 2 ≤ nv.2.length)).map
    (fun nv => (nv.1, _compute_deltas nv.2))

/-- The bike deltas dict of `compute_for_days`. -/
def bikeDeltasOf (rows : List RawRow) (latest : Option ℤ) (days : ℕ) : List (String × TsMap) :=
  let cutoff : Option ℤ := latest.map (fun L => L - (days : ℤ) * 1440)
  ((_load_time_series rows cutoff).velo.filter (fun nv => 2 ≤ nv.2.length)).map
    (fun nv => (nv.1, _compute_deltas nv.2))

/-- `sorted(set(car_keys) & set(bike_keys))`: the keys of both delta
dicts are distinct, so filtering one key list by membership in the other
is the set intersection, then sort ascending. -/
def commonTs (cm bm : TsMap) : List ℤ :=
  List.insertionSort (· ≤ ·) ((cm.map (·.1)).filter (fun t => (bm.map (·.1)).contains t))

/-- Everything about one retained car–bike pair that is computed before
the call to `correlation`: the aligned delta vectors, the common-point
count and the two coordinate lookups.  This is the computable half of
the loop body of `compute_for_days`. -/
structure PairInput where
  car : String
  bike : String
  x : List ℚ
  y : List ℚ
  n : ℕ
  carXY : Option (ℚ × ℚ)
  bikeXY : Option (ℚ × ℚ)
deriving DecidableEq

/-- The loop body of `compute_for_days` up to the `MIN_COMMON_POINTS`
guard: `none` exactly when the pair is discarded
(`n < MIN_COMMON_POINTS`, the `continue`). -/
def pairInputOf (meta : Meta) (cnm bnm : String × TsMap) : Option PairInput :=
  let common := commonTs cnm.2 bnm.2
  if common.length < MIN_COMMON_POINTS then none
  else some
    { car := cnm.1
      bike := bnm.1
      x := common.map (fun t => (((alookup cnm.2 t).getD 0 : ℤ) : ℚ))
      y := common.map (fun t => (((alookup bnm.2 t).getD 0 : ℤ) : ℚ))
      n := common.length
      carXY := meta "Voiture" cnm.1
      bikeXY := meta "Velo" bnm.1 }

/-- The cross-join of `compute_for_days`: every car against every bike,
keeping the pairs that pass the common-point guard, in loop order. -/
def qualifyingPairs (carD bikeD : List (String × TsMap)) (meta : Meta) : List PairInput :=
  carD.flatMap (fun cnm => bikeD.filterMap (fun bnm => pairInputOf meta cnm bnm))

/-- One emitted pair record (the dict appended to `pairs`), with the
rounded fields exactly as stored: `r`, `abs_r`, `score` to 4 decimal
places, `distance_km` to 3. -/
structure PairRec where
  car : String
  bike : String
  r : ℝ
  abs_r : ℝ
  distance_km : Option ℝ
  n : ℕ
  score : ℝ

/-- The distance of a pair: the haversine distance when both coordinate
lookups succeeded, else unknown. -/
noncomputable def pairDist (q : PairInput) : Option ℝ :=
  match q.carXY, q.bikeXY with
  | some c, some b => some (haversine_km (c.1 : ℝ) (c.2 : ℝ) (b.1 : ℝ) (b.2 : ℝ))
  | _, _ => none

/-- The raw (pre-rounding) score of a pair: `abs(r)` weighted by
`exp(-distance_km / DISTANCE_WEIGHT_KM)` when the distance is known. -/
noncomputable def pairScoreRaw (q : PairInput) : ℝ :=
  match pairDist q with
  | some d => |corrVal q.x q.y| * Real.exp (-d / DISTANCE_WEIGHT_KM)
  | none => |corrVal q.x q.y|

/-- The noncomputable half of the loop body of `compute_for_days`: the
record appended to `pairs`.  `correlation x y` cannot raise here
(`x`/`y` are nonempty equal-length lists since `n ≥ MIN_COMMON_POINTS`),
so its value is `corrVal x y`. -/
noncomputable def mkPair (q : PairInput) : PairRec :=
  { car := q.car
    bike := q.bike
    r := pyRoundR 4 (corrVal q.x q.y)
    abs_r := pyRoundR 4 |corrVal q.x q.y|
    distance_km := (pairDist q).map (pyRoundR 3)
    n := q.n
    score := pyRoundR 4 (pairScoreRaw q) }

/-- The sort relation of `pairs_sorted`: score descending (`sorted` with
`key=score, reverse=True`). -/
def scoreDesc (p q : PairRec) : Prop := q.score ≤ p.score

noncomputable instance : DecidableRel scoreDesc := fun _ _ => Classical.propDecidable _

/-- The `top_global` filter: `abs_r ≥ MIN_ABS_CORRELATION_TO_SHOW` and
(distance unknown or `≤ DEFAULT_MAX_DISTANCE_KM`), on the stored
(rounded) fields. -/
def topFilter (p : PairRec) : Prop :=
  MIN_ABS_CORRELATION_TO_SHOW ≤ p.abs_r ∧
    (match p.distance_km with
     | none => True
     | some d => d ≤ DEFAULT_MAX_DISTANCE_KM)

noncomputable instance : Decidable (topFilter p) := Classical.propDecidable _

/-- The output object of `compute_for_days` (the JSON-independent
payload: entity name lists, matrix, sorted pair list, top-global subset,
pair count). -/
structure CorrOut where
  cars : List String
  bikes : List String
  matrix : List (List (Option ℝ))
  pairs : List PairRec
  top_global : List PairRec
  pairs_computed : ℕ

/-- `analyze_correlations.compute_for_days`.  The matrix lookup
`pair_map.get((car, bike))` is embedded as `find?` over the pair list:
pair keys are distinct (car names and bike names are dict keys), so the
first match is the only match. -/
noncomputable def compute_for_days (rows : List RawRow) (meta : Meta)
    (latest : Option ℤ) (days : ℕ) : CorrOut :=
  let carD := carDeltasOf rows latest days
  let bikeD := bikeDeltasOf rows latest days
  let cars := List.insertionSort (· ≤ ·) (carD.map (·.1))
  let bikes := List.insertionSort (· ≤ ·) (bikeD.map (·.1))
  let pairs := (qualifyingPairs carD bikeD meta).map mkPair
  let matrix := cars.map (fun c => bikes.map (fun b =>
    (pairs.find? (fun p => decide (p.car = c ∧ p.bike = b))).map (·.r)))
  let pairs_sorted := List.insertionSort scoreDesc pairs
  let top_global := (pairs_sorted.filter (fun p => decide (topFilter p))).take TOP_N_PAIRS
  { cars := cars
    bikes := bikes
    matrix := matrix
    pairs := pairs_sorted
    top_global := top_global
    pairs_computed := pairs.length }

/-- `analyze_correlations.main` for one lookback window: the latest
timestamp is taken from the same history. -/
noncomputable def correlationsMain (rows : List RawRow) (meta : Meta) (days : ℕ) : CorrOut :=
  compute_for_days rows meta (maxTimestamp rows) days

/-! ### scripts/analyze_saturation.py -/

/-- `analyze_saturation.LOOKBACK_DAYS`. -/
def SAT_LOOKBACK_DAYS : ℕ := 7

/-- `analyze_saturation.SAT_THRESHOLD` (0.90). -/
def SAT_THRESHOLD : ℚ := 9 / 10

/-- `series[type][name][ts] = (occ, total)`: the inner dict of one
entity in the saturation series. -/
abbrev OccMap := List (ℤ × (ℚ × ℚ))

/-- One per-type dict of the saturation series. -/
abbrev OccSeriesT := List (String × OccMap)

/-- The saturation `{"Voiture": …, "Velo": …}` series. -/
structure SatSeries where
  voiture : OccSeriesT
  velo : OccSeriesT
deriving DecidableEq

/-- `series[typ][name][ts] = (occ, total)` on a defaultdict-of-dict. -/
def addOcc : OccSeriesT → String → ℤ → (ℚ × ℚ) → OccSeriesT
  | [], name, ts, v => [(name, [(ts, v)])]
  | (n, tm) :: rest, name, ts, v =>
    if n = name then (n, upsert ts v tm) :: rest
    else (n, tm) :: addOcc rest name ts v

/-- `analyze_saturation.occ_from_free_total`: `None` when `total ≤ 0`,
else `1 - free/total` clamped into `[0, 1]`. -/
def occ_from_free_total (free total : ℚ) : Option ℚ :=
  if total ≤ 0 then none
  else
    let occ := 1 - free / total
    some (if occ < 0 then 0 else if 1 < occ then 1 else occ)

/-- One iteration of the row loop of `analyze_saturation.main`: strip
the fields; skip on blank date/time/name or unknown type, an
unparseable timestamp, a timestamp before the cutoff, an unparseable
free or total (`_to_float`, which returns `None` on any failure), or an
undefined occupancy (`total ≤ 0`); otherwise store (last write wins). -/
def satStep (cutoff : ℤ) (s : SatSeries) (r : RawRow) : SatSeries :=
  let d := pyStrip r.date
  let t := pyStrip r.heure
  let typ := pyStrip r.typ
  let name := pyStrip r.nom
  let free_s := pyStrip r.placesLibres
  let total_s := pyStrip r.placesTotales
  if d = "" ∨ t = "" ∨ ¬(typ = "Voiture" ∨ typ = "Velo") ∨ name = "" then s
  else
    match make_timestamp d t with
    | none => s
    | some ts =>
      if ts < cutoff then s
      else
        match pyFloat? free_s, pyFloat? total_s with
        | some free, some total =>
          (match occ_from_free_total free total with
           | none => s
           | some occ =>
             if typ = "Voiture" then { s with voiture := addOcc s.voiture name ts (occ, total) }
             else { s with velo := addOcc s.velo name ts (occ, total) })
        | _, _ => s

/-- The saturation series built from the history. -/
def satSeriesOf (rows : List RawRow) (cutoff : ℤ) : SatSeries :=
  rows.foldl (satStep cutoff) ⟨[], []⟩

/-- One ranking record, fields rounded to 4 decimals as stored. -/
structure RankRec where
  name : String
  mean_occ : ℚ
  max_occ : ℚ
  sat_pct : ℚ
  n_points : ℕ
deriving DecidableEq

/-- Python `max` over a (known nonempty) list. -/
def listMax : List ℚ → ℚ
  | [] => 0
  | x :: xs => xs.foldl max x

/-- The sort key of the saturation ranking:
`(mean_occ, sat_pct, max_occ)` of the (rounded) record fields. -/
def rankKey (x : RankRec) : ℚ × ℚ × ℚ := (x.mean_occ, x.sat_pct, x.max_occ)

/-- Lexicographic `≤` on the ranking key triples. -/
def lexQLE (a b : ℚ × ℚ × ℚ) : Prop :=
  a.1 < b.1 ∨ (a.1 = b.1 ∧ (a.2.1 < b.2.1 ∨ (a.2.1 = b.2.1 ∧ a.2.2 ≤ b.2.2)))

instance (a b : ℚ × ℚ × ℚ) : Decidable (lexQLE a b) := by
  unfold lexQLE; infer_instance

/-- The sort relation of `build_ranking`: key descending (`sort` with
`reverse=True`), ties keeping insertion order (stability). -/
def rankDesc (x y : RankRec) : Prop := lexQLE (rankKey y) (rankKey x)

instance (x y : RankRec) : Decidable (rankDesc x y) := by
  unfold rankDesc; infer_instance

/-- The loop body of `analyze_saturation.build_ranking` for one entity:
the `if not ts_map` / `if n == 0` guards of the source are kept although
a stored series is never empty; `occ_values` is ordered by timestamp
(`sorted(ts_map.items(), key=kv[0])`). -/
def rankRecOf (nm : String × OccMap) : Option RankRec :=
  if nm.2.isEmpty then none
  else
    let sortedPts := List.insertionSort (fun a b : ℤ × (ℚ × ℚ) => a.1 ≤ b.1) nm.2
    let occValues := sortedPts.map (fun kv => kv.2.1)
    let n := occValues.length
    if n = 0 then none
    else some
      { name := nm.1
        mean_occ := pyRound 4 (occValues.sum / n)
        max_occ := pyRound 4 (listMax occValues)
        sat_pct := pyRound 4 (((occValues.filter (fun x => SAT_THRESHOLD ≤ x)).length : ℚ) / n)
        n_points := n }

/-- `analyze_saturation.build_ranking` for one per-type series: one
record per entity, then sort by `(mean_occ, sat_pct, max_occ)`
descending. -/
def build_ranking (series : OccSeriesT) : List RankRec :=
  List.insertionSort rankDesc (series.filterMap rankRecOf)

/-- All occupancy values reported at timestamp `ts` across the entities
of one type (`city[typ][ts]`). -/
def cityAt (series : OccSeriesT) (ts : ℤ) : List ℚ :=
  series.flatMap (fun nm => (nm.2.filter (fun kv => decide (kv.1 = ts))).map (fun kv => kv.2.1))

/-- `analyze_saturation.city_curve` for one type: for each timestamp
present in some entity's series (each dict key once), in ascending
order, the average of the occupancies reported at it; a timestamp with
no values is omitted (the source's `if not values: continue`). -/
def cityCurve (series : OccSeriesT) : List (ℤ × ℚ) :=
  let allTs := (series.flatMap (fun nm => nm.2.map (·.1))).dedup
  (List.insertionSort (· ≤ ·) allTs).filterMap (fun ts =>
    let values := cityAt series ts
    if values.isEmpty then none
    else some (ts, pyRound 4 (values.sum / values.length)))

/-- The saturation output payload: per-type rankings and city curves. -/
structure SatOut where
  cars_rank : List RankRec
  bikes_rank : List RankRec
  city_cars : List (ℤ × ℚ)
  city_bikes : List (ℤ × ℚ)
deriving DecidableEq

/-- `analyze_saturation.main` on in-memory rows: `SystemExit` with the
empty-history message when no row yields a timestamp, else the rankings
and city curves over the trailing 7-day window. -/
def saturationRun (rows : List RawRow) : Except String SatOut :=
  match maxTimestamp rows with
  | none => .error "Historique vide : impossible de calculer la saturation."
  | some latest =>
    let cutoff := latest - (SAT_LOOKBACK_DAYS : ℤ) * 1440
    let s := satSeriesOf rows cutoff
    .ok
      { cars_rank := build_ranking s.voiture
        bikes_rank := build_ranking s.velo
        city_cars := cityCurve s.voiture
        city_bikes := cityCurve s.velo }

/-! ### Helper lemmas about the statistics library -/

/-- The population variance is a sum of squares over a positive count,
hence nonnegative. -/
theorem varianceVal_nonneg (xs : List ℚ) : 0 ≤ varianceVal xs := by
  unfold varianceVal
  apply div_nonneg
  · apply List.sum_nonneg
    intro x hx
    simp only [List.mem_map] at hx
    obtain ⟨a, _, rfl⟩ := hx
    positivity
  · exact Nat.cast_nonneg _

/-- The standard deviation `math.sqrt(variance)` is zero exactly when
the variance is zero. -/
theorem sqrt_varianceVal_eq_zero_iff (xs : List ℚ) :
    Real.sqrt ((varianceVal xs : ℝ)) = 0 ↔ varianceVal xs = 0 := by
  rw [Real.sqrt_eq_zero']
  constructor
  · intro h
    have h0 : (0 : ℝ) ≤ (varianceVal xs : ℝ) := by exact_mod_cast varianceVal_nonneg xs
    exact_mod_cast le_antisymm h h0
  · intro h
    rw [h]
    simp

/-- A sum of nonnegative rationals vanishes exactly when every term
vanishes. -/
theorem sum_eq_zero_iff_of_nonneg :
    ∀ (l : List ℚ), (∀ x ∈ l, 0 ≤ x) → (l.sum = 0 ↔ ∀ x ∈ l, x = 0)
  | [], _ => by simp
  | x :: l, h => by
    have hx : 0 ≤ x := h x (by simp)
    have hl : ∀ y ∈ l, 0 ≤ y := fun y hy => h y (List.mem_cons_of_mem _ hy)
    have hs : 0 ≤ l.sum := List.sum_nonneg hl
    rw [List.sum_cons, add_eq_zero_iff_of_nonneg hx hs, sum_eq_zero_iff_of_nonneg l hl]
    simp

/-- A list all of whose elements are `c` sums to `length * c`. -/
theorem sum_const_list : ∀ (l : List ℚ) (c : ℚ), (∀ x ∈ l, x = c) → l.sum = l.length * c
  | [], _, _ => by simp
  | x :: l, c, h => by
    have hx : x = c := h x (by simp)
    have hl := sum_const_list l c (fun y hy => h y (List.mem_cons_of_mem _ hy))
    simp only [List.sum_cons, hx, hl, List.length_cons]
    push_cast
    ring

/-- The variance vanishes exactly when every element equals the mean. -/
theorem varianceVal_eq_zero_iff (xs : List ℚ) (hx : xs ≠ []) :
    varianceVal xs = 0 ↔ ∀ a ∈ xs, a = moyenneVal xs := by
  have hn : ((xs.length : ℚ)) ≠ 0 := by
    exact_mod_cast (List.length_pos.mpr hx).ne'
  unfold varianceVal
  rw [div_eq_zero_iff, or_iff_left hn,
    sum_eq_zero_iff_of_nonneg _ (by
      intro x hxm
      simp only [List.mem_map] at hxm
      obtain ⟨a, _, rfl⟩ := hxm
      positivity)]
  constructor
  · intro h a ha
    have := h ((a - moyenneVal xs) ^ 2) (List.mem_map_of_mem _ ha)
    have := (pow_eq_zero_iff two_ne_zero).mp this
    linarith [sub_eq_zero.mp this]
  · intro h y hy
    simp only [List.mem_map] at hy
    obtain ⟨a, ha, rfl⟩ := hy
    rw [h a ha]
    ring

/-- A nonempty list is constant exactly when every element equals its
mean. -/
theorem all_eq_iff_eq_mean (xs : List ℚ) (hx : xs ≠ []) :
    (∀ a ∈ xs, ∀ b ∈ xs, a = b) ↔ ∀ a ∈ xs, a = moyenneVal xs := by
  have hn : ((xs.length : ℚ)) ≠ 0 := by
    exact_mod_cast (List.length_pos.mpr hx).ne'
  constructor
  · intro h a ha
    have hall : ∀ b ∈ xs, b = a := fun b hb => h b hb a ha
    unfold moyenneVal
    rw [sum_const_list xs a hall]
    exact (mul_div_cancel_left₀ a hn).symm
  · intro h a ha b hb
    rw [h a ha, h b hb]

/-- Zipping a list with itself pairs each element with itself. -/
theorem zip_self {α : Type} : ∀ l : List α, l.zip l = l.map (fun a => (a, a))
  | [] => rfl
  | a :: l => by
    rw [List.zip_cons_cons, zip_self l, List.map_cons]

/-- The covariance of a list with itself is its variance. -/
theorem covVal_self (xs : List ℚ) : covVal xs xs = varianceVal xs := by
  unfold covVal varianceVal
  rw [zip_self, List.map_map]
  congr 1
  congr 1
  apply List.map_congr_left
  intro a _
  simp only [Function.comp_apply]
  ring

/-- `correlation(xs, xs)` on a nonempty non-constant list is exactly 1. -/
theorem correlation_self_nonconstant (xs : List ℚ) (hx : xs ≠ [])
    (hne : ∃ a ∈ xs, ∃ b ∈ xs, a ≠ b) : correlation xs xs = .ok 1 := by
  have hlen0 : ¬(xs.length = 0 ∨ xs.length = 0) := by
    simp [List.length_eq_zero, hx]
  have hv : varianceVal xs ≠ 0 := by
    intro h0
    obtain ⟨a, ha, b, hb, hab⟩ := hne
    have hall := (varianceVal_eq_zero_iff xs hx).mp h0
    exact hab ((hall a ha).trans (hall b hb).symm)
  have hs : Real.sqrt ((varianceVal xs : ℝ)) ≠ 0 := by
    rw [Ne, sqrt_varianceVal_eq_zero_iff]
    exact hv
  rw [correlation, if_neg hlen0, if_neg (by simp)]
  have hval : corrVal xs xs = 1 := by
    rw [corrVal, if_neg (by simp [hs])]
    have hvv : (0 : ℝ) ≤ (varianceVal xs : ℝ) := by exact_mod_cast varianceVal_nonneg xs
    rw [Real.mul_self_sqrt hvv,
      show ((covVal xs xs : ℚ) : ℝ) = ((varianceVal xs : ℝ)) by exact_mod_cast covVal_self xs]
    exact div_self (by exact_mod_cast hv)
  rw [hval]

/-- `correlation(xs, xs)` on a nonempty constant list is exactly 0. -/
theorem correlation_self_constant (xs : List ℚ) (hx : xs ≠ [])
    (hc : ∀ a ∈ xs, ∀ b ∈ xs, a = b) : correlation xs xs = .ok 0 := by
  have hv : varianceVal xs = 0 :=
    (varianceVal_eq_zero_iff xs hx).mpr ((all_eq_iff_eq_mean xs hx).mp hc)
  rw [correlation, if_neg (by simp [List.length_eq_zero, hx]), if_neg (by simp)]
  have hval : corrVal xs xs = 0 := by
    rw [corrVal, if_pos (Or.inl (by rw [hv]; simp))]
  rw [hval]

/-- Indexing a successful `mapME`: the effectful map at position `i`
succeeded with the corresponding output element. -/
theorem mapME_ok_get {ε α β : Type} {f : α → Except ε β} :
    ∀ {l : List α} {l' : List β}, mapME f l = .ok l' →
      ∀ {i : ℕ} {a : α} {b : β}, l[i]? = some a → l'[i]? = some b → f a = .ok b := by
  intro l
  induction l with
  | nil =>
    intro l' h i a b ha _
    simp at ha
  | cons x xs ih =>
    intro l' h i a b ha hb
    rw [mapME] at h
    cases hfx : f x with
    | error e => rw [hfx] at h; exact absurd h (by simp)
    | ok y =>
      rw [hfx] at h
      cases hrest : mapME f xs with
      | error e => rw [hrest] at h; exact absurd h (by simp)
      | ok ys =>
        rw [hrest] at h
        simp only [Except.ok.injEq] at h
        subst h
        cases i with
        | zero =>
          simp only [List.getElem?_cons_zero, Option.some.injEq] at ha hb
          subst ha; subst hb
          exact hfx
        | succ n =>
          exact ih hrest (by simpa using ha) (by simpa using hb)

/-- C1: for every pair of equal-length nonempty input lists, if the
standard deviation of either list is 0, then `correlation` returns
exactly 0.0 and raises no error. -/
theorem C1_correlation_zero_when_stddev_zero (xs ys : List ℚ)
    (hx : xs ≠ []) (hy : ys ≠ []) (hlen : xs.length = ys.length)
    (hσ : Real.sqrt ((varianceVal xs : ℝ)) = 0 ∨ Real.sqrt ((varianceVal ys : ℝ)) = 0) :
    correlation xs ys = .ok 0 := by
  have hlen0 : ¬(xs.length = 0 ∨ ys.length = 0) := by
    simp [List.length_eq_zero, hx, hy]
  rw [correlation, if_neg hlen0, if_neg (by simp [hlen])]
  have hval : corrVal xs ys = 0 := by
    rw [corrVal, if_pos hσ]
  rw [hval]

unseal Rat.inv Rat.mul Rat.add Rat.sub in
/-- C1 witness: the constant list `[1, 1]` has standard deviation 0 and
`correlation([1, 1], [2, 3])` returns `0.0`. -/
theorem C1_correlation_zero_when_stddev_zero_witness :
    correlation [1, 1] [2, 3] = .ok 0 :=
  C1_correlation_zero_when_stddev_zero [1, 1] [2, 3]
    (by decide) (by decide) rfl
    (Or.inl (by
      rw [show varianceVal [1, 1] = 0 by decide]
      simp))

/-- C9: for every pair of nonempty input lists of different lengths,
`covariance` and `correlation` both fail with the length-mismatch error
and never return a value. -/
theorem C9_length_mismatch_raises (xs ys : List ℚ)
    (hx : xs ≠ []) (hy : ys ≠ []) (hlen : xs.length ≠ ys.length) :
    covariance xs ys = .error .lengthMismatch ∧
      correlation xs ys = .error .lengthMismatch := by
  have hlen0 : ¬(xs.length = 0 ∨ ys.length = 0) := by
    simp [List.length_eq_zero, hx, hy]
  exact ⟨by rw [covariance, if_neg hlen0, if_pos hlen],
    by rw [correlation, if_neg hlen0, if_pos hlen]⟩

/-- C9 witness: `[0]` against `[0, 1]`. -/
theorem C9_length_mismatch_raises_witness :
    covariance [0] [0, 1] = .error .lengthMismatch ∧
      correlation [0] [0, 1] = .error .lengthMismatch :=
  C9_length_mismatch_raises [0] [0, 1] (by decide) (by decide) (by decide)

/-- C8: `correlation(xs, xs)` is 1.0 for a nonempty non-constant list
and 0.0 for a constant one, and every diagonal cell of a successfully
computed correlation matrix is 1.0, or 0.0 when that series is
constant. -/
theorem C8_correlation_self_and_diagonal :
    (∀ xs : List ℚ, xs ≠ [] →
      ((∃ a ∈ xs, ∃ b ∈ xs, a ≠ b) → correlation xs xs = .ok 1) ∧
      ((∀ a ∈ xs, ∀ b ∈ xs, a = b) → correlation xs xs = .ok 0)) ∧
    (∀ (series : List (List ℚ)) (mat : List (List ℝ)) (i : ℕ)
        (si : List ℚ) (row : List ℝ) (v : ℝ),
      matrice_correlation series = .ok mat →
      series[i]? = some si → mat[i]? = some row → row[i]? = some v →
      ((∃ a ∈ si, ∃ b ∈ si, a ≠ b) → v = 1) ∧
      ((∀ a ∈ si, ∀ b ∈ si, a = b) → v = 0)) := by
  constructor
  · intro xs hx
    exact ⟨correlation_self_nonconstant xs hx, correlation_self_constant xs hx⟩
  · intro series mat i si row v hmat hsi hrow hv
    rw [matrice_correlation] at hmat
    by_cases h0 : series.length = 0
    · rw [if_pos h0] at hmat
      exact absurd hmat (by simp)
    · rw [if_neg h0] at hmat
      have hrowok : mapME (fun sj => correlation si sj) series = .ok row :=
        mapME_ok_get hmat hsi hrow
      have hcorr : correlation si si = .ok v := mapME_ok_get hrowok hsi hv
      have hne : si ≠ [] := by
        intro h
        subst h
        rw [correlation, if_pos (by simp)] at hcorr
        exact absurd hcorr (by simp)
      constructor
      · intro hnc
        have := hcorr.symm.trans (correlation_self_nonconstant si hne hnc)
        simpa using this
      · intro hc
        have := hcorr.symm.trans (correlation_self_constant si hne hc)
        simpa using this

/-- C8 witness: `[0, 1]` is non-constant with self-correlation 1, `[2, 2]`
is constant with self-correlation 0, and the 2×2 matrix of the two series
`[0, 1]` and `[3, 3]` has diagonal `1, 0`. -/
theorem C8_correlation_self_and_diagonal_witness :
    correlation [0, 1] [0, 1] = .ok 1 ∧ correlation [2, 2] [2, 2] = .ok 0 ∧
    (∀ mat row v, matrice_correlation [[0, 1], [3, 3]] = .ok mat →
      mat[1]? = some row → row[1]? = some v → v = 0) := by
  refine ⟨(C8_correlation_self_and_diagonal.1 [0, 1] (by decide)).1 ⟨0, by decide, 1, by decide, by decide⟩,
    (C8_correlation_self_and_diagonal.1 [2, 2] (by decide)).2 (by decide), ?_⟩
  intro mat row v hmat hrow hv
  exact (C8_correlation_self_and_diagonal.2 [[0, 1], [3, 3]] mat 1 [3, 3] row v
    hmat (by decide) hrow hv).2 (by decide)

/-! ### Helper lemmas about the pipelines -/

/-- A fold whose step fixes every state is the identity. -/
theorem foldl_id_of_fixed {α β : Type} (f : α → β → α) :
    ∀ (l : List β) (s : α), (∀ x ∈ l, ∀ a, f a x = a) → l.foldl f s = s
  | [], _, _ => rfl
  | x :: l, s, h => by
    rw [List.foldl_cons, h x (by simp)]
    exact foldl_id_of_fixed f l s (fun y hy a => h y (List.mem_cons_of_mem _ hy) a)

/-- A row whose (unstripped) timestamp does not parse never changes the
running maximum. -/
theorem maxStep_eq_of_unparseable (best : Option ℤ) (r : RawRow)
    (h : make_timestamp r.date r.heure = none) : maxStep best r = best := by
  simp only [maxStep, h]
  split <;> rfl

/-- If no row has a parseable timestamp, `max_timestamp_in_csv` finds
nothing. -/
theorem maxTimestamp_eq_none (rows : List RawRow)
    (h : ∀ r ∈ rows, make_timestamp r.date r.heure = none) :
    maxTimestamp rows = none := by
  unfold maxTimestamp
  exact foldl_id_of_fixed _ rows none
    (fun r hr a => maxStep_eq_of_unparseable a r (h r hr))

/-- A row whose stripped timestamp does not parse is skipped by
`_load_time_series`. -/
theorem loadStep_eq_of_unparseable (cutoff : Option ℤ) (s : Series2) (r : RawRow)
    (h : make_timestamp (pyStrip r.date) (pyStrip r.heure) = none) :
    loadStep cutoff s r = s := by
  simp only [loadStep, h]
  split <;> rfl

/-- If no row has a parseable (stripped) timestamp, the loaded series is
empty. -/
theorem load_time_series_eq_empty (rows : List RawRow) (cutoff : Option ℤ)
    (h : ∀ r ∈ rows, make_timestamp (pyStrip r.date) (pyStrip r.heure) = none) :
    _load_time_series rows cutoff = ⟨[], []⟩ := by
  unfold _load_time_series
  exact foldl_id_of_fixed _ rows ⟨[], []⟩
    (fun r hr a => loadStep_eq_of_unparseable cutoff a r (h r hr))

/-- C4: on an entirely empty history (no record with a parseable
timestamp, stripped or not), the saturation analysis aborts with the
explicit fatal empty-history error, while the correlation analysis
completes normally with zero pairs (empty pair list, top subset and
matrix, pair count 0). -/
theorem C4_empty_history_behaviour (rows : List RawRow) (meta : Meta) (days : ℕ)
    (h : ∀ r ∈ rows, make_timestamp (pyStrip r.date) (pyStrip r.heure) = none ∧
      make_timestamp r.date r.heure = none) :
    saturationRun rows = .error "Historique vide : impossible de calculer la saturation." ∧
    (correlationsMain rows meta days).pairs = [] ∧
    (correlationsMain rows meta days).top_global = [] ∧
    (correlationsMain rows meta days).matrix = [] ∧
    (correlationsMain rows meta days).pairs_computed = 0 := by
  have hmax : maxTimestamp rows = none :=
    maxTimestamp_eq_none rows (fun r hr => (h r hr).2)
  have hload : ∀ c, _load_time_series rows c = ⟨[], []⟩ :=
    fun c => load_time_series_eq_empty rows c (fun r hr => (h r hr).1)
  refine ⟨by rw [saturationRun, hmax], ?_, ?_, ?_, ?_⟩ <;>
    simp [correlationsMain, hmax, compute_for_days, carDeltasOf, bikeDeltasOf, hload,
      qualifyingPairs]

/-- C4 witness: a history whose single record has an unparseable
timestamp. -/
theorem C4_empty_history_behaviour_witness :
    saturationRun [⟨"garbage", "x", "Voiture", "A", "1", "2"⟩] =
      .error "Historique vide : impossible de calculer la saturation." ∧
    (correlationsMain [⟨"garbage", "x", "Voiture", "A", "1", "2"⟩] (fun _ _ => none) 7).pairs = [] := by
  have := C4_empty_history_behaviour [⟨"garbage", "x", "Voiture", "A", "1", "2"⟩]
    (fun _ _ => none) 7 (by decide)
  exact ⟨this.1, this.2.1⟩

/-- Members of an updated dictionary: an old entry or the new binding. -/
theorem mem_upsert_cases {α β : Type} [DecidableEq α] (k : α) (v : β) :
    ∀ (m : List (α × β)) (kv : α × β), kv ∈ upsert k v m → kv ∈ m ∨ kv = (k, v)
  | [], kv, h => by
    simp only [upsert] at h
    simp at h
    exact Or.inr h
  | kv₀ :: rest, kv, h => by
    simp only [upsert] at h
    split at h
    · rcases List.mem_cons.mp h with h | h
      · exact Or.inr h
      · exact Or.inl (List.mem_cons_of_mem _ h)
    · rcases List.mem_cons.mp h with h | h
      · exact Or.inl (h ▸ List.mem_cons_self _ _)
      · rcases mem_upsert_cases k v rest kv h with h | h
        · exact Or.inl (List.mem_cons_of_mem _ h)
        · exact Or.inr h

/-- `addOcc` preserves a predicate on the stored values if the new value
satisfies it. -/
theorem addOcc_preserves (P : ℚ × ℚ → Prop) :
    ∀ (m : OccSeriesT) (name : String) (ts : ℤ) (v : ℚ × ℚ),
      (∀ nm ∈ m, ∀ kv ∈ nm.2, P kv.2) → P v →
      ∀ nm ∈ addOcc m name ts v, ∀ kv ∈ nm.2, P kv.2
  | [], name, ts, v, _, hv => by
    intro nm hnm kv hkv
    simp only [addOcc] at hnm
    rcases List.mem_singleton.mp hnm with rfl
    rcases List.mem_singleton.mp hkv with rfl
    exact hv
  | (n, tm) :: rest, name, ts, v, hm, hv => by
    intro nm hnm kv hkv
    simp only [addOcc] at hnm
    split at hnm
    · rcases List.mem_cons.mp hnm with h | h
      · subst h
        rcases mem_upsert_cases ts v tm kv hkv with h | h
        · exact hm (n, tm) (List.mem_cons_self _ _) kv h
        · subst h
          exact hv
      · exact hm nm (List.mem_cons_of_mem _ h) kv hkv
    · rcases List.mem_cons.mp hnm with h | h
      · exact hm nm (by rw [h]; exact List.mem_cons_self _ _) kv hkv
      · exact addOcc_preserves P rest name ts v
          (fun nm' hnm' => hm nm' (List.mem_cons_of_mem _ hnm')) hv nm h kv hkv

/-- A successfully computed occupancy is clamped into `[0, 1]`. -/
theorem occ_from_free_total_bounds (free total occ : ℚ)
    (h : occ_from_free_total free total = some occ) : 0 ≤ occ ∧ occ ≤ 1 := by
  simp only [occ_from_free_total] at h
  split at h
  · exact absurd h (by simp)
  · simp only [Option.some.injEq] at h
    subst h
    split_ifs with h1 h2
    · exact ⟨le_refl 0, zero_le_one⟩
    · exact ⟨zero_le_one, le_refl 1⟩
    · constructor <;> linarith

/-- A fold preserves an invariant preserved by its step. -/
theorem foldl_preserves {α β : Type} (P : α → Prop) (f : α → β → α) :
    ∀ (l : List β) (s : α), P s → (∀ a x, P a → P (f a x)) → P (l.foldl f s)
  | [], s, h0, _ => h0
  | x :: l, s, h0, hstep =>
    foldl_preserves P f l (f s x) (hstep s x h0) hstep

/-- Every occupancy stored by one `satStep` stays in `[0, 1]`. -/
theorem satStep_occ_in_unit (cutoff : ℤ) (s : SatSeries) (r : RawRow)
    (h : (∀ nm ∈ s.voiture, ∀ kv ∈ nm.2, 0 ≤ kv.2.1 ∧ kv.2.1 ≤ 1) ∧
         (∀ nm ∈ s.velo, ∀ kv ∈ nm.2, 0 ≤ kv.2.1 ∧ kv.2.1 ≤ 1)) :
    (∀ nm ∈ (satStep cutoff s r).voiture, ∀ kv ∈ nm.2, 0 ≤ kv.2.1 ∧ kv.2.1 ≤ 1) ∧
    (∀ nm ∈ (satStep cutoff s r).velo, ∀ kv ∈ nm.2, 0 ≤ kv.2.1 ∧ kv.2.1 ≤ 1) := by
  simp only [satStep]
  split
  · exact h
  · split
    · exact h
    · split
      · exact h
      · split
        · split
          · exact h
          · split
            · constructor
              · exact addOcc_preserves (fun v => 0 ≤ v.1 ∧ v.1 ≤ 1) s.voiture _ _ _ h.1
                  (occ_from_free_total_bounds _ _ _ (by assumption))
              · exact h.2
            · constructor
              · exact h.1
              · exact addOcc_preserves (fun v => 0 ≤ v.1 ∧ v.1 ≤ 1) s.velo _ _ _ h.2
                  (occ_from_free_total_bounds _ _ _ (by assumption))
        · exact h

/-- A record whose parsed capacity is nonpositive is silently skipped by
the saturation row loop: the series are unchanged and nothing is
raised. -/
theorem satStep_eq_of_total_nonpos (cutoff : ℤ) (s : SatSeries) (r : RawRow) (tq : ℚ)
    (hparse : pyFloat? (pyStrip r.placesTotales) = some tq) (hle : tq ≤ 0) :
    satStep cutoff s r = s := by
  have hocc : ∀ f : ℚ, occ_from_free_total f tq = none := fun f => by
    simp only [occ_from_free_total, if_pos hle]
  simp only [satStep, hparse]
  split
  · rfl
  · split
    · rfl
    · split
      · rfl
      · cases hf : pyFloat? (pyStrip r.placesLibres) <;> simp [hocc]

/-- C6: the occupancy of a record is `1 - free/total` clamped into
`[0, 1]` (in particular `free > total` yields exactly `0`, never a
negative value), a record with `total ≤ 0` is silently skipped and
changes no series, and every occupancy stored in a saturation series
lies in `[0, 1]`. -/
theorem C6_occupancy_clamped_and_total_guard :
    (∀ free total : ℚ, total ≤ 0 → occ_from_free_total free total = none) ∧
    (∀ free total : ℚ, 0 < total →
      occ_from_free_total free total = some (max 0 (min 1 (1 - free / total)))) ∧
    (∀ free total : ℚ, 0 < total → total < free → occ_from_free_total free total = some 0) ∧
    (∀ (cutoff : ℤ) (s : SatSeries) (r : RawRow) (tq : ℚ),
      pyFloat? (pyStrip r.placesTotales) = some tq → tq ≤ 0 → satStep cutoff s r = s) ∧
    (∀ (rows : List RawRow) (cutoff : ℤ),
      (∀ nm ∈ (satSeriesOf rows cutoff).voiture, ∀ kv ∈ nm.2, 0 ≤ kv.2.1 ∧ kv.2.1 ≤ 1) ∧
      (∀ nm ∈ (satSeriesOf rows cutoff).velo, ∀ kv ∈ nm.2, 0 ≤ kv.2.1 ∧ kv.2.1 ≤ 1)) := by
  refine ⟨?_, ?_, ?_, satStep_eq_of_total_nonpos, ?_⟩
  · intro free total h
    simp only [occ_from_free_total, if_pos h]
  · intro free total h
    simp only [occ_from_free_total, if_neg (not_le.mpr h)]
    congr 1
    rw [max_def, min_def]
    split_ifs <;> linarith
  · intro free total ht hf
    have hlt : 1 - free / total < 0 := by
      have := (one_lt_div ht).mpr hf
      linarith
    simp only [occ_from_free_total, if_neg (not_le.mpr ht), if_pos hlt]
  · intro rows cutoff
    exact foldl_preserves
      (fun s2 => (∀ nm ∈ s2.voiture, ∀ kv ∈ nm.2, 0 ≤ kv.2.1 ∧ kv.2.1 ≤ 1) ∧
        (∀ nm ∈ s2.velo, ∀ kv ∈ nm.2, 0 ≤ kv.2.1 ∧ kv.2.1 ≤ 1))
      (satStep cutoff) rows ⟨[], []⟩
      (by constructor <;> intro nm hnm <;> simp at hnm)
      (fun a x ha => satStep_occ_in_unit cutoff a x ha)

unseal Rat.inv Rat.mul Rat.add Rat.sub in
/-- C6 witness: `total = 0` is undefined, `free = 11 > total = 10` clamps
to exactly 0, a regular record gives the clamped occupancy, and a row
with capacity `"0"` leaves the series untouched. -/
theorem C6_occupancy_clamped_and_total_guard_witness :
    occ_from_free_total 5 0 = none ∧
    occ_from_free_total 11 10 = some 0 ∧
    occ_from_free_total 5 10 = some (max 0 (min 1 (1 - 5 / 10))) ∧
    satStep 0 ⟨[], []⟩ ⟨"2024-01-01", "00:00", "Voiture", "A", "5", "0"⟩ = ⟨[], []⟩ :=
  ⟨C6_occupancy_clamped_and_total_guard.1 5 0 le_rfl,
   C6_occupancy_clamped_and_total_guard.2.2.1 11 10 (by norm_num) (by norm_num),
   C6_occupancy_clamped_and_total_guard.2.1 5 10 (by norm_num),
   C6_occupancy_clamped_and_total_guard.2.2.2.1 0 ⟨[], []⟩ _ 0 (by decide) le_rfl⟩

/-- The lexicographic order on ranking key triples is total. -/
theorem lexQLE_total (a b : ℚ × ℚ × ℚ) : lexQLE a b ∨ lexQLE b a := by
  unfold lexQLE
  rcases lt_trichotomy a.1 b.1 with h | h | h
  · exact Or.inl (Or.inl h)
  · rcases lt_trichotomy a.2.1 b.2.1 with h2 | h2 | h2
    · exact Or.inl (Or.inr ⟨h, Or.inl h2⟩)
    · rcases le_total a.2.2 b.2.2 with h3 | h3
      · exact Or.inl (Or.inr ⟨h, Or.inr ⟨h2, h3⟩⟩)
      · exact Or.inr (Or.inr ⟨h.symm, Or.inr ⟨h2.symm, h3⟩⟩)
    · exact Or.inr (Or.inr ⟨h.symm, Or.inl h2⟩)
  · exact Or.inr (Or.inl h)

/-- The lexicographic order on ranking key triples is transitive. -/
theorem lexQLE_trans (a b c : ℚ × ℚ × ℚ) (h1 : lexQLE a b) (h2 : lexQLE b c) : lexQLE a c := by
  unfold lexQLE at h1 h2 ⊢
  rcases h1 with h1 | ⟨e1, h1⟩
  · rcases h2 with h2 | ⟨e2, _⟩
    · exact Or.inl (h1.trans h2)
    · exact Or.inl (lt_of_lt_of_le h1 (le_of_eq e2))
  · rcases h2 with h2 | ⟨e2, h2⟩
    · exact Or.inl (lt_of_le_of_lt (le_of_eq e1) h2)
    · refine Or.inr ⟨e1.trans e2, ?_⟩
      rcases h1 with h1 | ⟨f1, h1⟩
      · rcases h2 with h2 | ⟨f2, _⟩
        · exact Or.inl (h1.trans h2)
        · exact Or.inl (lt_of_lt_of_le h1 (le_of_eq f2))
      · rcases h2 with h2 | ⟨f2, h2⟩
        · exact Or.inl (lt_of_le_of_lt (le_of_eq f1) h2)
        · exact Or.inr ⟨f1.trans f2, h1.trans h2⟩

instance : IsTotal RankRec rankDesc where
  total a b := (lexQLE_total (rankKey b) (rankKey a)).elim Or.inl Or.inr

instance : IsTrans RankRec rankDesc where
  trans a b c h1 h2 := lexQLE_trans (rankKey c) (rankKey b) (rankKey a) h2 h1

/-- `build_ranking` output is pairwise descending on the
`(mean_occ, sat_pct, max_occ)` key. -/
theorem build_ranking_pairwise (series : OccSeriesT) :
    List.Pairwise rankDesc (build_ranking series) :=
  List.sorted_insertionSort rankDesc _

/-- A successful saturation run names its latest timestamp and is built
from `build_ranking` and `cityCurve` over the 7-day window. -/
theorem saturationRun_ok_shape (rows : List RawRow) (out : SatOut)
    (h : saturationRun rows = .ok out) :
    ∃ latest, maxTimestamp rows = some latest ∧
      out = { cars_rank := build_ranking (satSeriesOf rows (latest - (SAT_LOOKBACK_DAYS : ℤ) * 1440)).voiture
              bikes_rank := build_ranking (satSeriesOf rows (latest - (SAT_LOOKBACK_DAYS : ℤ) * 1440)).velo
              city_cars := cityCurve (satSeriesOf rows (latest - (SAT_LOOKBACK_DAYS : ℤ) * 1440)).voiture
              city_bikes := cityCurve (satSeriesOf rows (latest - (SAT_LOOKBACK_DAYS : ℤ) * 1440)).velo } := by
  unfold saturationRun at h
  cases hm : maxTimestamp rows with
  | none =>
    rw [hm] at h
    exact absurd h (by simp)
  | some latest =>
    rw [hm] at h
    simp only [Except.ok.injEq] at h
    exact ⟨latest, rfl, h.symm⟩

/-- C7: in both saturation rankings, whenever A is listed before B, the
key of A is lexicographically at least that of B; equivalently, an
entity with a strictly lexicographically greater (rounded)
`(mean_occ, sat_pct, max_occ)` is always ranked above. -/
theorem C7_saturation_ranking_lex_descending (rows : List RawRow) (out : SatOut)
    (h : saturationRun rows = .ok out) :
    (∀ (i j : ℕ) (a b : RankRec), i < j →
      out.cars_rank[i]? = some a → out.cars_rank[j]? = some b →
      lexQLE (rankKey b) (rankKey a)) ∧
    (∀ (i j : ℕ) (a b : RankRec), i < j →
      out.bikes_rank[i]? = some a → out.bikes_rank[j]? = some b →
      lexQLE (rankKey b) (rankKey a)) := by
  obtain ⟨latest, _, rfl⟩ := saturationRun_ok_shape rows out h
  constructor <;>
  · intro i j a b hij ha hb
    obtain ⟨hi', ha'⟩ := List.getElem?_eq_some_iff.mp ha
    obtain ⟨hj', hb'⟩ := List.getElem?_eq_some_iff.mp hb
    have hp := List.pairwise_iff_getElem.mp (build_ranking_pairwise _) i j hi' hj' hij
    rw [ha', hb'] at hp
    exact hp

/-- Recover an `Except` success from its `toOption` projection. -/
theorem except_ok_of_toOption {ε α : Type} (e : Except ε α) (a : α)
    (h : e.toOption = some a) : e = .ok a := by
  cases e with
  | ok b => simpa [Except.toOption] using congrArg (Option.map id) h
  | error e => simp [Except.toOption] at h

/-- A two-car history: "A" fully occupied, "C" half occupied. -/
def c7Rows : List RawRow :=
  [⟨"2024-01-01", "00:00", "Voiture", "A", "0", "10"⟩,
   ⟨"2024-01-01", "00:00", "Voiture", "C", "5", "10"⟩]

/-- The saturation output of the two-car history. -/
def c7Out : SatOut := (saturationRun c7Rows).toOption.getD ⟨[], [], [], []⟩

/-- A default ranking record. -/
def rrDefault : RankRec := ⟨"", 0, 0, 0, 0⟩

unseal Rat.inv Rat.mul Rat.add Rat.sub in
/-- C7 witness: on the two-car history the first-ranked car's key
dominates the second-ranked car's key. -/
theorem C7_saturation_ranking_lex_descending_witness :
    lexQLE (rankKey (c7Out.cars_rank[1]?.getD rrDefault))
      (rankKey (c7Out.cars_rank[0]?.getD rrDefault)) := by
  have hok : saturationRun c7Rows = .ok c7Out :=
    except_ok_of_toOption _ _ (by decide)
  exact (C7_saturation_ranking_lex_descending c7Rows c7Out hok).1 0 1 _ _
    (by norm_num) (by decide) (by decide)

/-- Keys of an updated series: an old key or the new name. -/
theorem mem_keys_addPoint :
    ∀ (m : SeriesT) (name : String) (ts free : ℤ) (k : String),
      k ∈ (addPoint m name ts free).map (·.1) → k ∈ m.map (·.1) ∨ k = name
  | [], name, ts, free, k => by
    simp [addPoint]
  | (n, tm) :: rest, name, ts, free, k => by
    simp only [addPoint]
    split
    · exact fun h => Or.inl h
    · intro h
      rcases List.mem_cons.mp h with h | h
      · exact Or.inl (by simp [h])
      · rcases mem_keys_addPoint rest name ts free k h with h | h
        · exact Or.inl (List.mem_cons_of_mem _ h)
        · exact Or.inr h

/-- `addPoint` preserves distinctness of the entity keys. -/
theorem nodup_keys_addPoint :
    ∀ (m : SeriesT) (name : String) (ts free : ℤ),
      ((m.map (·.1)).Nodup) → ((addPoint m name ts free).map (·.1)).Nodup
  | [], name, ts, free, _ => by simp [addPoint]
  | (n, tm) :: rest, name, ts, free, h => by
    simp only [addPoint]
    split
    · simpa using h
    · rename_i hne
      simp only [List.map_cons, List.nodup_cons] at h ⊢
      refine ⟨fun hk => ?_, nodup_keys_addPoint rest name ts free h.2⟩
      rcases mem_keys_addPoint rest name ts free n hk with hk | hk
      · exact h.1 hk
      · exact hne hk

/-- One `loadStep` preserves distinctness of the entity keys of both
series. -/
theorem loadStep_keys_nodup (cutoff : Option ℤ) (s : Series2) (r : RawRow)
    (h : ((s.voiture.map (·.1)).Nodup) ∧ ((s.velo.map (·.1)).Nodup)) :
    (((loadStep cutoff s r).voiture.map (·.1)).Nodup) ∧
    (((loadStep cutoff s r).velo.map (·.1)).Nodup) := by
  simp only [loadStep]
  split
  · exact h
  · split
    · exact h
    · split
      · split
        · exact h
        · split
          · exact h
          · split
            · exact ⟨nodup_keys_addPoint _ _ _ _ h.1, h.2⟩
            · split
              · exact ⟨h.1, nodup_keys_addPoint _ _ _ _ h.2⟩
              · exact h
      · split
        · exact h
        · split
          · exact ⟨nodup_keys_addPoint _ _ _ _ h.1, h.2⟩
          · split
            · exact ⟨h.1, nodup_keys_addPoint _ _ _ _ h.2⟩
            · exact h

/-- The entity keys of a loaded series are distinct (they are dict
keys). -/
theorem load_time_series_keys_nodup (rows : List RawRow) (cutoff : Option ℤ) :
    (((_load_time_series rows cutoff).voiture.map (·.1)).Nodup) ∧
    (((_load_time_series rows cutoff).velo.map (·.1)).Nodup) := by
  unfold _load_time_series
  exact foldl_preserves
    (fun s => ((s.voiture.map (·.1)).Nodup) ∧ ((s.velo.map (·.1)).Nodup))
    (loadStep cutoff) rows ⟨[], []⟩ (by simp)
    (fun a x ha => loadStep_keys_nodup cutoff a x ha)

/-- A successful dictionary lookup is a member. -/
theorem mem_of_alookup_eq_some {α β : Type} [DecidableEq α] :
    ∀ (m : List (α × β)) (k : α) (v : β), alookup m k = some v → (k, v) ∈ m
  | [], k, v, h => by simp [alookup] at h
  | kv :: rest, k, v, h => by
    simp only [alookup, List.find?_cons] at h
    split at h
    · rename_i hkv
      simp only [Option.map_some', Option.some.injEq] at h
      have h1 : kv.1 = k := of_decide_eq_true hkv
      rw [← h, ← h1]
      exact List.mem_cons_self _ _
    · exact List.mem_cons_of_mem _ (mem_of_alookup_eq_some rest k v h)

/-- With distinct keys, membership determines the lookup. -/
theorem alookup_eq_some_of_mem {α β : Type} [DecidableEq α] :
    ∀ (m : List (α × β)) (k : α) (v : β), ((m.map (·.1)).Nodup) → (k, v) ∈ m →
      alookup m k = some v
  | [], k, v, _, h => by simp at h
  | kv :: rest, k, v, hnd, h => by
    simp only [List.map_cons, List.nodup_cons] at hnd
    rcases List.mem_cons.mp h with h | h
    · subst h
      simp [alookup, List.find?_cons]
    · have hne : kv.1 ≠ k := by
        intro he
        refine hnd.1 ?_
        rw [he]
        exact List.mem_map_of_mem (·.1) h
      have hd : (decide (kv.1 = k)) = false := decide_eq_false hne
      simp only [alookup, List.find?_cons, hd]
      exact alookup_eq_some_of_mem rest k v hnd.2 h

/-- What a retained pair of the cross-join looks like: names, aligned
vectors, count, coordinates, and the passed guard. -/
theorem pairInputOf_some_spec (meta : Meta) (cnm bnm : String × TsMap) (q : PairInput)
    (h : pairInputOf meta cnm bnm = some q) :
    q.car = cnm.1 ∧ q.bike = bnm.1 ∧
    q.n = (commonTs cnm.2 bnm.2).length ∧ MIN_COMMON_POINTS ≤ q.n ∧
    q.x = (commonTs cnm.2 bnm.2).map (fun t => (((alookup cnm.2 t).getD 0 : ℤ) : ℚ)) ∧
    q.y = (commonTs cnm.2 bnm.2).map (fun t => (((alookup bnm.2 t).getD 0 : ℤ) : ℚ)) ∧
    q.carXY = meta "Voiture" cnm.1 ∧ q.bikeXY = meta "Velo" bnm.1 := by
  simp only [pairInputOf] at h
  split at h
  · exact absurd h (by simp)
  · rename_i hguard
    simp only [Option.some.injEq] at h
    subst h
    exact ⟨rfl, rfl, rfl, le_of_not_lt hguard, rfl, rfl, rfl, rfl⟩

/-- Membership in the cross-join. -/
theorem mem_qualifyingPairs_iff (carD bikeD : List (String × TsMap)) (meta : Meta)
    (q : PairInput) :
    q ∈ qualifyingPairs carD bikeD meta ↔
      ∃ cnm ∈ carD, ∃ bnm ∈ bikeD, pairInputOf meta cnm bnm = some q := by
  unfold qualifyingPairs
  rw [List.mem_flatMap]
  constructor
  · rintro ⟨cnm, hc, hq⟩
    obtain ⟨bnm, hb, hpb⟩ := List.mem_filterMap.mp hq
    exact ⟨cnm, hc, bnm, hb, hpb⟩
  · rintro ⟨cnm, hc, bnm, hb, hpb⟩
    exact ⟨cnm, hc, List.mem_filterMap.mpr ⟨bnm, hb, hpb⟩⟩

/-- The pair list of `compute_for_days`, before sorting. -/
theorem compute_for_days_pairs_eq (rows : List RawRow) (meta : Meta)
    (latest : Option ℤ) (days : ℕ) :
    (compute_for_days rows meta latest days).pairs =
      List.insertionSort scoreDesc
        ((qualifyingPairs (carDeltasOf rows latest days) (bikeDeltasOf rows latest days) meta).map
          mkPair) := rfl

/-- The top-global subset of `compute_for_days`. -/
theorem compute_for_days_top_eq (rows : List RawRow) (meta : Meta)
    (latest : Option ℤ) (days : ℕ) :
    (compute_for_days rows meta latest days).top_global =
      (((compute_for_days rows meta latest days).pairs).filter
        (fun p => decide (topFilter p))).take TOP_N_PAIRS := rfl

/-- The sorted car name list of `compute_for_days`. -/
theorem compute_for_days_cars_eq (rows : List RawRow) (meta : Meta)
    (latest : Option ℤ) (days : ℕ) :
    (compute_for_days rows meta latest days).cars =
      List.insertionSort (· ≤ ·) ((carDeltasOf rows latest days).map (·.1)) := rfl

/-- The sorted bike name list of `compute_for_days`. -/
theorem compute_for_days_bikes_eq (rows : List RawRow) (meta : Meta)
    (latest : Option ℤ) (days : ℕ) :
    (compute_for_days rows meta latest days).bikes =
      List.insertionSort (· ≤ ·) ((bikeDeltasOf rows latest days).map (·.1)) := rfl

/-- The matrix of `compute_for_days`, cell by cell. -/
theorem compute_for_days_matrix_eq (rows : List RawRow) (meta : Meta)
    (latest : Option ℤ) (days : ℕ) :
    (compute_for_days rows meta latest days).matrix =
      (compute_for_days rows meta latest days).cars.map (fun c =>
        (compute_for_days rows meta latest days).bikes.map (fun b =>
          (((qualifyingPairs (carDeltasOf rows latest days) (bikeDeltasOf rows latest days) meta).map
              mkPair).find? (fun p => decide (p.car = c ∧ p.bike = b))).map (·.r))) := rfl

/-- Membership in the emitted pair list: exactly the images of the
qualifying cross-join entries. -/
theorem mem_compute_pairs_iff (rows : List RawRow) (meta : Meta)
    (latest : Option ℤ) (days : ℕ) (p : PairRec) :
    p ∈ (compute_for_days rows meta latest days).pairs ↔
      ∃ q ∈ qualifyingPairs (carDeltasOf rows latest days) (bikeDeltasOf rows latest days) meta,
        p = mkPair q := by
  rw [compute_for_days_pairs_eq, List.mem_insertionSort, List.mem_map]
  constructor
  · rintro ⟨q, hq, rfl⟩
    exact ⟨q, hq, rfl⟩
  · rintro ⟨q, hq, rfl⟩
    exact ⟨q, hq, rfl⟩

/-- An entity with at least one stored point gets a ranking record with
its name and its exact point count. -/
theorem rankRecOf_of_ne_nil (name : String) (tm : OccMap) (h : tm ≠ []) :
    ∃ rec : RankRec, rankRecOf (name, tm) = some rec ∧
      rec.name = name ∧ rec.n_points = tm.length := by
  have hlen :
      ((List.insertionSort (fun a b : ℤ × (ℚ × ℚ) => a.1 ≤ b.1) tm).map
        (fun kv => kv.2.1)).length = tm.length := by
    rw [List.length_map, (List.perm_insertionSort _ tm).length_eq]
  simp only [rankRecOf]
  rw [if_neg (by simpa [List.isEmpty_iff] using h), if_neg (by
    rw [hlen]
    simpa [List.length_eq_zero] using h)]
  exact ⟨_, rfl, rfl, hlen⟩

/-- The entity keys of the car deltas dict are those of the filtered
series. -/
theorem carDeltasOf_keys_eq (rows : List RawRow) (latest : Option ℤ) (days : ℕ) :
    (carDeltasOf rows latest days).map (·.1) =
      ((_load_time_series rows (latest.map (fun L => L - (days : ℤ) * 1440))).voiture.filter
        (fun nv => decide (2 ≤ nv.2.length))).map (·.1) := by
  simp [carDeltasOf, List.map_map]

/-- The entity keys of the bike deltas dict are those of the filtered
series. -/
theorem bikeDeltasOf_keys_eq (rows : List RawRow) (latest : Option ℤ) (days : ℕ) :
    (bikeDeltasOf rows latest days).map (·.1) =
      ((_load_time_series rows (latest.map (fun L => L - (days : ℤ) * 1440))).velo.filter
        (fun nv => decide (2 ≤ nv.2.length))).map (·.1) := by
  simp [bikeDeltasOf, List.map_map]

/-- An entity with fewer than 2 points is not among the car delta keys. -/
theorem not_mem_carDeltas_keys (rows : List RawRow) (latest : Option ℤ) (days : ℕ)
    (name : String) (tm : TsMap)
    (h1 : alookup (_load_time_series rows (latest.map (fun L => L - (days : ℤ) * 1440))).voiture name = some tm)
    (h2 : tm.length < 2) :
    name ∉ (carDeltasOf rows latest days).map (·.1) := by
  rw [carDeltasOf_keys_eq]
  intro hmem
  obtain ⟨nv, hnv, hname⟩ := List.mem_map.mp hmem
  obtain ⟨hnv', hp⟩ := List.mem_filter.mp hnv
  have h2' : 2 ≤ nv.2.length := of_decide_eq_true hp
  have hl : alookup (_load_time_series rows (latest.map (fun L => L - (days : ℤ) * 1440))).voiture nv.1 = some nv.2 :=
    alookup_eq_some_of_mem _ _ _ (load_time_series_keys_nodup rows _).1 (by
      simpa using hnv')
  rw [hname, h1] at hl
  simp only [Option.some.injEq] at hl
  rw [hl] at h2
  omega

/-- An entity with fewer than 2 points is not among the bike delta keys. -/
theorem not_mem_bikeDeltas_keys (rows : List RawRow) (latest : Option ℤ) (days : ℕ)
    (name : String) (tm : TsMap)
    (h1 : alookup (_load_time_series rows (latest.map (fun L => L - (days : ℤ) * 1440))).velo name = some tm)
    (h2 : tm.length < 2) :
    name ∉ (bikeDeltasOf rows latest days).map (·.1) := by
  rw [bikeDeltasOf_keys_eq]
  intro hmem
  obtain ⟨nv, hnv, hname⟩ := List.mem_map.mp hmem
  obtain ⟨hnv', hp⟩ := List.mem_filter.mp hnv
  have h2' : 2 ≤ nv.2.length := of_decide_eq_true hp
  have hl : alookup (_load_time_series rows (latest.map (fun L => L - (days : ℤ) * 1440))).velo nv.1 = some nv.2 :=
    alookup_eq_some_of_mem _ _ _ (load_time_series_keys_nodup rows _).2 (by
      simpa using hnv')
  rw [hname, h1] at hl
  simp only [Option.some.injEq] at hl
  rw [hl] at h2
  omega

/-- A history with a single valid record for car "Solo". -/
def c3Rows : List RawRow := [⟨"2024-01-01", "00:00", "Voiture", "Solo", "5", "10"⟩]

unseal Rat.inv Rat.mul Rat.add Rat.sub in
/-- C3 counterexample: the entity "Solo" has exactly one timestamped
point after parsing and cutoff filtering, yet the saturation analysis
emits a ranking entry (with `n_points = 1`) and a city-curve point for
it — it is not discarded. -/
theorem C3_lt_two_points_counterexample :
    (satSeriesOf c3Rows ((1063994400 : ℤ) - (SAT_LOOKBACK_DAYS : ℤ) * 1440)).voiture =
      [("Solo", [(1063994400, (1 / 2, 10))])] ∧
    saturationRun c3Rows = .ok
      { cars_rank := [{ name := "Solo", mean_occ := 1 / 2, max_occ := 1 / 2,
                        sat_pct := 0, n_points := 1 }]
        bikes_rank := []
        city_cars := [(1063994400, 1 / 2)]
        city_bikes := [] } :=
  ⟨by decide, except_ok_of_toOption _ _ (by decide)⟩

/-- C3 (amended): in correlation mode an entity whose series has fewer
than 2 points after parsing and cutoff filtering is discarded — it is
absent from the entity lists and no emitted pair involves it; in
saturation mode, however, every entity with at least one stored point is
retained: it receives a ranking entry reporting its point count, and
each of its stored points enters the city-curve bucket at its timestamp,
which therefore appears in the emitted city curve (with the rounded
bucket average). -/
theorem C3_lt_two_points_discarded_in_correlation_only (rows : List RawRow) (meta : Meta)
    (latest : Option ℤ) (days : ℕ) (name : String) (tm : TsMap) :
    (alookup (_load_time_series rows (latest.map (fun L => L - (days : ℤ) * 1440))).voiture name = some tm →
      tm.length < 2 →
      name ∉ (compute_for_days rows meta latest days).cars ∧
      ∀ p ∈ (compute_for_days rows meta latest days).pairs, p.car ≠ name) ∧
    (alookup (_load_time_series rows (latest.map (fun L => L - (days : ℤ) * 1440))).velo name = some tm →
      tm.length < 2 →
      name ∉ (compute_for_days rows meta latest days).bikes ∧
      ∀ p ∈ (compute_for_days rows meta latest days).pairs, p.bike ≠ name) ∧
    (∀ (series : OccSeriesT) (nm : String) (om : OccMap),
      (nm, om) ∈ series → om ≠ [] →
      ∃ rec ∈ build_ranking series, rec.name = nm ∧ rec.n_points = om.length) ∧
    (∀ (series : OccSeriesT) (nm : String) (om : OccMap),
      (nm, om) ∈ series → ∀ kv ∈ om,
      kv.2.1 ∈ cityAt series kv.1 ∧
      (kv.1, pyRound 4 ((cityAt series kv.1).sum / ((cityAt series kv.1).length : ℚ))) ∈
        cityCurve series) := by
  refine ⟨?_, ?_, ?_, ?_⟩
  · intro h1 h2
    have hkeys := not_mem_carDeltas_keys rows latest days name tm h1 h2
    constructor
    · rw [compute_for_days_cars_eq]
      intro hx
      exact hkeys ((List.mem_insertionSort _).mp hx)
    · intro p hp
      rw [mem_compute_pairs_iff] at hp
      obtain ⟨q, hq, rfl⟩ := hp
      obtain ⟨cnm, hc, bnm, hb, hpb⟩ := (mem_qualifyingPairs_iff _ _ _ _).mp hq
      have hcar : q.car = cnm.1 := (pairInputOf_some_spec meta cnm bnm q hpb).1
      show q.car ≠ name
      rw [hcar]
      intro he
      exact hkeys (he ▸ List.mem_map_of_mem (·.1) hc)
  · intro h1 h2
    have hkeys := not_mem_bikeDeltas_keys rows latest days name tm h1 h2
    constructor
    · rw [compute_for_days_bikes_eq]
      intro hx
      exact hkeys ((List.mem_insertionSort _).mp hx)
    · intro p hp
      rw [mem_compute_pairs_iff] at hp
      obtain ⟨q, hq, rfl⟩ := hp
      obtain ⟨cnm, hc, bnm, hb, hpb⟩ := (mem_qualifyingPairs_iff _ _ _ _).mp hq
      have hbike : q.bike = bnm.1 := (pairInputOf_some_spec meta cnm bnm q hpb).2.1
      show q.bike ≠ name
      rw [hbike]
      intro he
      exact hkeys (he ▸ List.mem_map_of_mem (·.1) hb)
  · intro series nm om hmem hne
    obtain ⟨rec, hr, hname, hpts⟩ := rankRecOf_of_ne_nil nm om hne
    exact ⟨rec,
      (List.mem_insertionSort _).mpr (List.mem_filterMap.mpr ⟨(nm, om), hmem, hr⟩),
      hname, hpts⟩
  · intro series nm om hmem kv hkv
    have hbucket : kv.2.1 ∈ cityAt series kv.1 := by
      unfold cityAt
      exact List.mem_flatMap.mpr ⟨(nm, om), hmem,
        List.mem_map_of_mem _ (List.mem_filter.mpr ⟨hkv, by simp⟩)⟩
    refine ⟨hbucket, ?_⟩
    have hne : ((cityAt series kv.1).isEmpty) = false := by
      cases hC : cityAt series kv.1 with
      | nil => rw [hC] at hbucket; simp at hbucket
      | cons a l => rfl
    simp only [cityCurve]
    refine List.mem_filterMap.mpr ⟨kv.1, ?_, ?_⟩
    · exact (List.mem_insertionSort _).mpr (List.mem_dedup.mpr
        (List.mem_flatMap.mpr ⟨(nm, om), hmem, List.mem_map_of_mem (·.1) hkv⟩))
    · simp [hne]

unseal Rat.inv Rat.mul Rat.add Rat.sub in
/-- C3 amended-claim witness: on the single-record history, "Solo" (one
point) is absent from the correlation car list, yet a one-point entity
gets a saturation ranking record with `n_points = 1` and its single
point shows up in the city curve at its timestamp. -/
theorem C3_lt_two_points_discarded_in_correlation_only_witness :
    "Solo" ∉ (compute_for_days c3Rows (fun _ _ => none) none 7).cars ∧
    (∃ rec ∈ build_ranking [("Solo", [((0 : ℤ), ((1 / 2 : ℚ), 10))])],
      rec.name = "Solo" ∧ rec.n_points = 1) ∧
    ((1 / 2 : ℚ) ∈ cityAt [("Solo", [((0 : ℤ), ((1 / 2 : ℚ), 10))])] 0 ∧
      ((0 : ℤ), pyRound 4
          ((cityAt [("Solo", [((0 : ℤ), ((1 / 2 : ℚ), 10))])] 0).sum /
            ((cityAt [("Solo", [((0 : ℤ), ((1 / 2 : ℚ), 10))])] 0).length : ℚ))) ∈
        cityCurve [("Solo", [((0 : ℤ), ((1 / 2 : ℚ), 10))])]) :=
  ⟨(C3_lt_two_points_discarded_in_correlation_only c3Rows (fun _ _ => none) none 7
      "Solo" [(1063994400, 5)]).1 (by decide) (by decide) |>.1,
   (C3_lt_two_points_discarded_in_correlation_only c3Rows (fun _ _ => none) none 7
      "Solo" []).2.2.1 [("Solo", [((0 : ℤ), ((1 / 2 : ℚ), 10))])] "Solo"
      [((0 : ℤ), ((1 / 2 : ℚ), 10))] (by decide) (by decide),
   (C3_lt_two_points_discarded_in_correlation_only c3Rows (fun _ _ => none) none 7
      "Solo" []).2.2.2 [("Solo", [((0 : ℤ), ((1 / 2 : ℚ), 10))])] "Solo"
      [((0 : ℤ), ((1 / 2 : ℚ), 10))] (by decide) ((0 : ℤ), ((1 / 2 : ℚ), 10))
      (by decide)⟩

/-- The car delta keys are distinct. -/
theorem carDeltas_keys_nodup (rows : List RawRow) (latest : Option ℤ) (days : ℕ) :
    (((carDeltasOf rows latest days).map (·.1)).Nodup) := by
  rw [carDeltasOf_keys_eq]
  exact ((List.filter_sublist _).map _).nodup (load_time_series_keys_nodup rows _).1

/-- The bike delta keys are distinct. -/
theorem bikeDeltas_keys_nodup (rows : List RawRow) (latest : Option ℤ) (days : ℕ) :
    (((bikeDeltasOf rows latest days).map (·.1)).Nodup) := by
  rw [bikeDeltasOf_keys_eq]
  exact ((List.filter_sublist _).map _).nodup (load_time_series_keys_nodup rows _).2

/-- No qualifying cross-join entry carries the names of a car–bike pair
whose delta series share fewer than `MIN_COMMON_POINTS` timestamps. -/
theorem no_qualifying_of_lt_min (rows : List RawRow) (meta : Meta) (latest : Option ℤ)
    (days : ℕ) (car bike : String) (cm bm : TsMap)
    (hcm : alookup (carDeltasOf rows latest days) car = some cm)
    (hbm : alookup (bikeDeltasOf rows latest days) bike = some bm)
    (hlt : (commonTs cm bm).length < MIN_COMMON_POINTS) :
    ∀ q ∈ qualifyingPairs (carDeltasOf rows latest days) (bikeDeltasOf rows latest days) meta,
      ¬(q.car = car ∧ q.bike = bike) := by
  intro q hq ⟨hqc, hqb⟩
  obtain ⟨cnm, hc, bnm, hb, hpb⟩ := (mem_qualifyingPairs_iff _ _ _ _).mp hq
  obtain ⟨h1, h2, h3, h4, _⟩ := pairInputOf_some_spec meta cnm bnm q hpb
  have hcm' : alookup (carDeltasOf rows latest days) cnm.1 = some cnm.2 :=
    alookup_eq_some_of_mem _ _ _ (carDeltas_keys_nodup rows latest days) (by simpa using hc)
  have hbm' : alookup (bikeDeltasOf rows latest days) bnm.1 = some bnm.2 :=
    alookup_eq_some_of_mem _ _ _ (bikeDeltas_keys_nodup rows latest days) (by simpa using hb)
  have hc1 : cnm.1 = car := h1.symm.trans hqc
  have hb1 : bnm.1 = bike := h2.symm.trans hqb
  rw [hc1, hcm] at hcm'
  rw [hb1, hbm] at hbm'
  simp only [Option.some.injEq] at hcm' hbm'
  rw [hcm', hbm'] at hlt
  rw [h3] at h4
  omega

/-- C2: a car–bike pair whose delta series share fewer than
`MIN_COMMON_POINTS` (40) timestamps appears nowhere: not in the pair
list, not in the top-global subset, and its matrix cell is null;
conversely every emitted pair carries at least `MIN_COMMON_POINTS`
common points. -/
theorem C2_min_common_points_discard (rows : List RawRow) (meta : Meta)
    (latest : Option ℤ) (days : ℕ) (car bike : String) (cm bm : TsMap)
    (hcm : alookup (carDeltasOf rows latest days) car = some cm)
    (hbm : alookup (bikeDeltasOf rows latest days) bike = some bm)
    (hlt : (commonTs cm bm).length < MIN_COMMON_POINTS) :
    (∀ p ∈ (compute_for_days rows meta latest days).pairs, ¬(p.car = car ∧ p.bike = bike)) ∧
    (∀ p ∈ (compute_for_days rows meta latest days).top_global, ¬(p.car = car ∧ p.bike = bike)) ∧
    (∀ (i j : ℕ) (row : List (Option ℝ)),
      (compute_for_days rows meta latest days).cars[i]? = some car →
      (compute_for_days rows meta latest days).bikes[j]? = some bike →
      (compute_for_days rows meta latest days).matrix[i]? = some row →
      row[j]? = some none) ∧
    (∀ p ∈ (compute_for_days rows meta latest days).pairs, MIN_COMMON_POINTS ≤ p.n) := by
  have hno := no_qualifying_of_lt_min rows meta latest days car bike cm bm hcm hbm hlt
  have hpairs : ∀ p ∈ (compute_for_days rows meta latest days).pairs,
      ¬(p.car = car ∧ p.bike = bike) := by
    intro p hp hand
    rw [mem_compute_pairs_iff] at hp
    obtain ⟨q, hq, rfl⟩ := hp
    exact hno q hq hand
  refine ⟨hpairs, ?_, ?_, ?_⟩
  · intro p hp
    refine hpairs p ?_
    rw [compute_for_days_top_eq] at hp
    exact List.mem_of_mem_filter (List.take_subset _ _ hp)
  · intro i j row hi hj hrow
    rw [compute_for_days_matrix_eq, List.getElem?_map, hi, Option.map_some'] at hrow
    simp only [Option.some.injEq] at hrow
    rw [← hrow, List.getElem?_map, hj, Option.map_some']
    have hfind :
        (((qualifyingPairs (carDeltasOf rows latest days) (bikeDeltasOf rows latest days)
            meta).map mkPair).find?
          (fun p => decide (p.car = car ∧ p.bike = bike))) = none := by
      rw [List.find?_eq_none]
      intro p hp hdec
      obtain ⟨q, hq, rfl⟩ := List.mem_map.mp hp
      exact hno q hq (of_decide_eq_true hdec)
    rw [hfind, Option.map_none']
  · intro p hp
    rw [mem_compute_pairs_iff] at hp
    obtain ⟨q, hq, rfl⟩ := hp
    obtain ⟨cnm, hc, bnm, hb, hpb⟩ := (mem_qualifyingPairs_iff _ _ _ _).mp hq
    exact (pairInputOf_some_spec meta cnm bnm q hpb).2.2.2.1

/-- A history where car "A" and bike "B" each have two points but no
common delta timestamp. -/
def c2Rows : List RawRow :=
  [⟨"2024-01-01", "00:00", "Voiture", "A", "1", "10"⟩,
   ⟨"2024-01-01", "00:01", "Voiture", "A", "2", "10"⟩,
   ⟨"2024-01-01", "01:00", "Velo", "B", "1", "10"⟩,
   ⟨"2024-01-01", "01:01", "Velo", "B", "2", "10"⟩]

/-- Empty coordinate metadata for the C2 history. -/
def c2Meta : Meta := fun _ _ => none

unseal Rat.inv Rat.mul Rat.add Rat.sub in
/-- C2 witness: the pair ("A", "B") shares 0 < 40 common delta
timestamps, and its matrix cell (row 0, column 0) is null. -/
theorem C2_min_common_points_discard_witness :
    ((compute_for_days c2Rows c2Meta none 7).bikes.map (fun b =>
      (((qualifyingPairs (carDeltasOf c2Rows none 7) (bikeDeltasOf c2Rows none 7) c2Meta).map
          mkPair).find? (fun p => decide (p.car = "A" ∧ p.bike = b))).map (·.r)))[0]? =
      some none := by
  have hthm := C2_min_common_points_discard c2Rows c2Meta none 7 "A" "B"
    ((alookup (carDeltasOf c2Rows none 7) "A").getD [])
    ((alookup (bikeDeltasOf c2Rows none 7) "B").getD [])
    (by decide) (by decide) (by decide)
  refine hthm.2.2.1 0 0 _ (by decide) (by decide) ?_
  rw [compute_for_days_matrix_eq, List.getElem?_map,
    show (compute_for_days c2Rows c2Meta none 7).cars[0]? = some "A" by decide]
  rfl

/-- `atan2` of nonnegative arguments is nonnegative. -/
theorem atan2_nonneg (y x : ℝ) (hy : 0 ≤ y) (hx : 0 ≤ x) : 0 ≤ atan2 y x := by
  unfold atan2
  split_ifs with h1 h2 h3 h4 h5
  · have harc := Real.arctan_strictMono.monotone (div_nonneg hy h1.le)
    rwa [Real.arctan_zero] at harc
  all_goals linarith [Real.pi_pos]

/-- The haversine distance is nonnegative (for every real input in the
model, since both `atan2` arguments are square roots). -/
theorem haversine_km_nonneg (lat1 lon1 lat2 lon2 : ℝ) :
    0 ≤ haversine_km lat1 lon1 lat2 lon2 := by
  simp only [haversine_km]
  have h := atan2_nonneg (Real.sqrt (Real.sin (radians (lat2 - lat1) / 2) ^ 2 +
      Real.cos (radians lat1) * Real.cos (radians lat2) *
        Real.sin (radians (lon2 - lon1) / 2) ^ 2))
    (Real.sqrt (1 - (Real.sin (radians (lat2 - lat1) / 2) ^ 2 +
      Real.cos (radians lat1) * Real.cos (radians lat2) *
        Real.sin (radians (lon2 - lon1) / 2) ^ 2)))
    (Real.sqrt_nonneg _) (Real.sqrt_nonneg _)
  have h2 : (0 : ℝ) ≤ 2 := by norm_num
  have h6371 : (0 : ℝ) ≤ 6371 := by norm_num
  exact mul_nonneg h6371 (mul_nonneg h2 h)

/-- Round-half-even stays within one unit above the floor. -/
theorem roundHalfEvenR_bounds (s : ℝ) :
    ⌊s⌋ ≤ roundHalfEvenR s ∧ roundHalfEvenR s ≤ ⌊s⌋ + 1 := by
  unfold roundHalfEvenR
  dsimp only
  split_ifs <;> omega

/-- Round-half-even to an integer is monotone. -/
theorem roundHalfEvenR_mono {s t : ℝ} (h : s ≤ t) :
    roundHalfEvenR s ≤ roundHalfEvenR t := by
  have hf : ⌊s⌋ ≤ ⌊t⌋ := Int.floor_mono h
  rcases lt_or_eq_of_le hf with hl | he
  · have h1 := (roundHalfEvenR_bounds s).2
    have h2 := (roundHalfEvenR_bounds t).1
    omega
  · unfold roundHalfEvenR
    dsimp only
    rw [← he]
    have hft : s - ((⌊s⌋ : ℤ) : ℝ) ≤ t - ((⌊s⌋ : ℤ) : ℝ) := by linarith
    split_ifs <;> first | omega | linarith

/-- Python `round(·, d)` on reals is monotone. -/
theorem pyRoundR_mono (d : ℕ) {x y : ℝ} (h : x ≤ y) : pyRoundR d x ≤ pyRoundR d y := by
  unfold pyRoundR
  have hpow : (0 : ℝ) < (10 : ℝ) ^ d := by positivity
  apply (div_le_div_right hpow).mpr
  exact_mod_cast roundHalfEvenR_mono (mul_le_mul_of_nonneg_right h hpow.le)

/-- The pair distance is unknown when either coordinate is unknown. -/
theorem pairDist_eq_none (q : PairInput) (h : q.carXY = none ∨ q.bikeXY = none) :
    pairDist q = none := by
  rcases h with h | h
  · cases hb : q.bikeXY <;> simp [pairDist, h, hb]
  · cases hc : q.carXY <;> simp [pairDist, h, hc]

/-- The pair distance is the haversine distance when both coordinates
are known. -/
theorem pairDist_eq_some (q : PairInput) (cxy bxy : ℚ × ℚ)
    (hc : q.carXY = some cxy) (hb : q.bikeXY = some bxy) :
    pairDist q = some (haversine_km (cxy.1 : ℝ) (cxy.2 : ℝ) (bxy.1 : ℝ) (bxy.2 : ℝ)) := by
  simp [pairDist, hc, hb]

/-- The raw score never exceeds the raw correlation magnitude. -/
theorem pairScoreRaw_le_abs (q : PairInput) : pairScoreRaw q ≤ |corrVal q.x q.y| := by
  unfold pairScoreRaw
  cases hd : pairDist q with
  | none => exact le_refl _
  | some dval =>
    have hd0 : 0 ≤ dval := by
      unfold pairDist at hd
      split at hd
      · rename_i c b _ _
        simp only [Option.some.injEq] at hd
        rw [← hd]
        exact haversine_km_nonneg _ _ _ _
      · exact absurd hd (by simp)
    have hexp : Real.exp (-dval / DISTANCE_WEIGHT_KM) ≤ 1 := by
      rw [Real.exp_le_one_iff]
      apply div_nonpos_of_nonpos_of_nonneg (neg_nonpos.mpr hd0)
      norm_num [DISTANCE_WEIGHT_KM]
    exact mul_le_of_le_one_right (abs_nonneg _) hexp

/-- C5: every emitted pair's score is the rounded
`|r| · exp(−distance/DISTANCE_WEIGHT_KM)` when both coordinates are
known and the rounded `|r|` otherwise, and consequently
`score ≤ abs_r` holds on the emitted (rounded) fields. -/
theorem C5_score_distance_decay (rows : List RawRow) (meta : Meta)
    (latest : Option ℤ) (days : ℕ) (p : PairRec)
    (hp : p ∈ (compute_for_days rows meta latest days).pairs) :
    (∃ q ∈ qualifyingPairs (carDeltasOf rows latest days) (bikeDeltasOf rows latest days) meta,
      p = mkPair q ∧
      (∀ cxy bxy : ℚ × ℚ, q.carXY = some cxy → q.bikeXY = some bxy →
        p.score = pyRoundR 4 (|corrVal q.x q.y| *
          Real.exp (-(haversine_km (cxy.1 : ℝ) (cxy.2 : ℝ) (bxy.1 : ℝ) (bxy.2 : ℝ)) /
            DISTANCE_WEIGHT_KM))) ∧
      ((q.carXY = none ∨ q.bikeXY = none) → p.score = pyRoundR 4 |corrVal q.x q.y|)) ∧
    p.score ≤ p.abs_r := by
  rw [mem_compute_pairs_iff] at hp
  obtain ⟨q, hq, rfl⟩ := hp
  constructor
  · refine ⟨q, hq, rfl, ?_, ?_⟩
    · intro cxy bxy hcx hbx
      show pyRoundR 4 (pairScoreRaw q) = _
      simp only [pairScoreRaw, pairDist_eq_some q cxy bxy hcx hbx]
    · intro hnone
      show pyRoundR 4 (pairScoreRaw q) = _
      simp only [pairScoreRaw, pairDist_eq_none q hnone]
  · show pyRoundR 4 (pairScoreRaw q) ≤ pyRoundR 4 |corrVal q.x q.y|
    exact pyRoundR_mono 4 (pairScoreRaw_le_abs q)

/-- A two-digit "00:MM" time string. -/
def wTime (i : ℕ) : String := "00:" ++ (if i < 10 then "0" ++ toString i else toString i)

/-- A history with one car and one bike sampled at the same 42
timestamps, giving 41 common delta points (≥ MIN_COMMON_POINTS). -/
def wRows : List RawRow :=
  (List.range 42).flatMap (fun i =>
    [⟨"2024-01-01", wTime i, "Voiture", "A", toString i, "100"⟩,
     ⟨"2024-01-01", wTime i, "Velo", "B", toString (i % 3), "50"⟩])

/-- Empty coordinate metadata for the dense history. -/
def wMeta : Meta := fun _ _ => none

/-- The single qualifying cross-join entry of the dense history. -/
def wQ : PairInput :=
  (qualifyingPairs (carDeltasOf wRows none 7) (bikeDeltasOf wRows none 7) wMeta).headD
    ⟨"", "", [], [], 0, none, none⟩

unseal Rat.inv Rat.mul Rat.add Rat.sub in
/-- C5 witness: the dense history emits the pair ("A", "B") and its
stored score is bounded by its stored `abs_r`. -/
theorem C5_score_distance_decay_witness :
    (mkPair wQ).score ≤ (mkPair wQ).abs_r := by
  have hq : wQ ∈ qualifyingPairs (carDeltasOf wRows none 7) (bikeDeltasOf wRows none 7) wMeta := by
    decide
  have hp : mkPair wQ ∈ (compute_for_days wRows wMeta none 7).pairs := by
    rw [mem_compute_pairs_iff]
    exact ⟨wQ, hq, rfl⟩
  exact (C5_score_distance_decay wRows wMeta none 7 (mkPair wQ) hp).2

instance : IsTotal PairRec scoreDesc where
  total a b := le_total b.score a.score

instance : IsTrans PairRec scoreDesc where
  trans _ _ _ h1 h2 := le_trans h2 h1

/-- C10: every numeric field of an emitted pair is the rounded value
(`r`, `abs_r`, `score` to 4 decimals, `distance_km` to 3); the pair list
is sorted descending by the stored (rounded) score; the top-global
subset filters on the stored (rounded) `abs_r` and `distance_km`; and
every numeric matrix cell is the stored (rounded) `r` of an emitted
pair. -/
theorem C10_rounded_fields_downstream (rows : List RawRow) (meta : Meta)
    (latest : Option ℤ) (days : ℕ) (p : PairRec)
    (hp : p ∈ (compute_for_days rows meta latest days).pairs) :
    (∃ q ∈ qualifyingPairs (carDeltasOf rows latest days) (bikeDeltasOf rows latest days) meta,
      p = mkPair q ∧
      p.r = pyRoundR 4 (corrVal q.x q.y) ∧
      p.abs_r = pyRoundR 4 |corrVal q.x q.y| ∧
      p.score = pyRoundR 4 (pairScoreRaw q) ∧
      p.distance_km = (pairDist q).map (pyRoundR 3)) ∧
    List.Pairwise scoreDesc (compute_for_days rows meta latest days).pairs ∧
    ((compute_for_days rows meta latest days).top_global =
      ((compute_for_days rows meta latest days).pairs.filter
        (fun p => decide (topFilter p))).take TOP_N_PAIRS ∧
      ∀ p' : PairRec, topFilter p' ↔
        (MIN_ABS_CORRELATION_TO_SHOW ≤ p'.abs_r ∧
          ∀ dd : ℝ, p'.distance_km = some dd → dd ≤ DEFAULT_MAX_DISTANCE_KM)) ∧
    (∀ (i j : ℕ) (row : List (Option ℝ)) (c b : String) (v : ℝ),
      (compute_for_days rows meta latest days).cars[i]? = some c →
      (compute_for_days rows meta latest days).bikes[j]? = some b →
      (compute_for_days rows meta latest days).matrix[i]? = some row →
      row[j]? = some (some v) →
      ∃ p' ∈ (compute_for_days rows meta latest days).pairs,
        p'.car = c ∧ p'.bike = b ∧ v = p'.r) := by
  refine ⟨?_, ?_, ⟨compute_for_days_top_eq rows meta latest days, ?_⟩, ?_⟩
  · rw [mem_compute_pairs_iff] at hp
    obtain ⟨q, hq, rfl⟩ := hp
    exact ⟨q, hq, rfl, rfl, rfl, rfl, rfl⟩
  · rw [compute_for_days_pairs_eq]
    exact List.sorted_insertionSort scoreDesc _
  · intro p'
    unfold topFilter
    cases hdd : p'.distance_km with
    | none => simp
    | some dd0 => simp
  · intro i j row c b v hi hj hrow hcell
    rw [compute_for_days_matrix_eq, List.getElem?_map, hi, Option.map_some'] at hrow
    simp only [Option.some.injEq] at hrow
    rw [← hrow, List.getElem?_map, hj, Option.map_some'] at hcell
    simp only [Option.some.injEq] at hcell
    cases hfind : (((qualifyingPairs (carDeltasOf rows latest days)
        (bikeDeltasOf rows latest days) meta).map mkPair).find?
          (fun p => decide (p.car = c ∧ p.bike = b))) with
    | none => rw [hfind] at hcell; exact absurd hcell (by simp)
    | some p' =>
      rw [hfind] at hcell
      simp only [Option.map_some', Option.some.injEq] at hcell
      have hmem := List.mem_of_find?_eq_some hfind
      have hpred := List.find?_some hfind
      have hcb : p'.car = c ∧ p'.bike = b := of_decide_eq_true hpred
      refine ⟨p', ?_, hcb.1, hcb.2, hcell.symm⟩
      rw [compute_for_days_pairs_eq]
      exact (List.mem_insertionSort _).mpr hmem

unseal Rat.inv Rat.mul Rat.add Rat.sub in
/-- C10 witness: the dense history's emitted pair list is sorted
descending by the stored score. -/
theorem C10_rounded_fields_downstream_witness :
    List.Pairwise scoreDesc (compute_for_days wRows wMeta none 7).pairs := by
  have hq : wQ ∈ qualifyingPairs (carDeltasOf wRows none 7) (bikeDeltasOf wRows none 7) wMeta := by
    decide
  have hp : mkPair wQ ∈ (compute_for_days wRows wMeta none 7).pairs := by
    rw [mem_compute_pairs_iff]
    exact ⟨wQ, hq, rfl⟩
  exact (C10_rounded_fields_downstream wRows wMeta none 7 (mkPair wQ) hp).2.1
